import Mathlib

/-!
# SensorHub — verification of the storage / parser engine

Shallow embedding of the SensorHub backend (Python) in Lean 4.

The embedded code lives in:
* `backend/app/services/parser_legacy.py`  — `_build_batches`,
  `ParserDispatcher.validate_frame_index`, the parallel / single decode
  dispatch and `ParserService._create_progress_cb` / `parse_file_task`;
* `backend/app/services/parser_worker.py`  — `ParserWorker.parse_lines`,
  `merge_consecutive_items`, `merge_partial_results`,
  `finalize_parallel_results`;
* `backend/app/services/storage.py`        — `StorageService.verify_and_rebuild_index`;
* `backend/app/services/data_structures/sensor_data.py` — `ACC_Raw_Data.from_bytes`,
  `PPG_Raw_Data.from_bytes`;
* `backend/app/services/parser_types.py`   — the sensor-channel registry.

Machine bytes are modelled as `List Nat` (each entry one byte), Python `int`
as `Int`/`Nat`, Python dicts as association lists in insertion order,
and fallible operations as `Option`.  External collaborators that the claims
do not inspect internally (zstd compression, MD5, `json.loads`, the per-line
binary record decoders) are abstracted as function parameters: theorems
quantify over them, and concrete counterexamples instantiate them with
explicit functions.
-/

set_option autoImplicit false

namespace SensorHub

/-! ## Association lists in Python-dict order

Python dicts keep insertion order; assignment to an existing key keeps its
position, a fresh key is appended at the end.  `alGet` is `dict.get`. -/

def alGet {α : Type} : List (String × α) → String → Option α
  | [], _ => Option.none
  | p :: rest, k => if p.1 = k then some p.2 else alGet rest k

/-- `d[k] = v`: replace the (unique) entry in place, or append a fresh key
at the end. -/
def alSet {α : Type} : List (String × α) → String → α → List (String × α)
  | [], k, v => [(k, v)]
  | p :: rest, k, v => if p.1 = k then (k, v) :: rest else p :: alSet rest k v

/-- `collectors[key].append(r)` — the key is present in all reachable states
(the collectors dict is initialised with every registry key). -/
def alAppendRec {α : Type} (l : List (String × List α)) (k : String) (r : α) :
    List (String × List α) :=
  alSet l k ((alGet l k).getD [] ++ [r])

/-- `d[k] = d.get(k, 0) + 1` — the `data_type_dict` tally update. -/
def alBump (l : List (String × Nat)) (k : String) : List (String × Nat) :=
  alSet l k ((alGet l k).getD 0 + 1)

/-! ## Decoded sensor records (merge-relevant view)

`merge_consecutive_items` and the inline merge in `parse_lines` only read a
record's `serial_number`, its `arr_size`, and the channel's designated data
field (`acc_data` for CONSECUTIVE_ACC channels, `ppg_data` for
CONSECUTIVE_PPG channels; a record of a given channel carries exactly the
one named by the channel).  `SRecord.mdata` stands for that designated
field and `SRecord.meta` for all remaining decoded fields, which the merge
never touches. -/

structure SRecord where
  serial_number : Option Int
  arr_size : Int
  mdata : List Int
  meta : Nat
deriving DecidableEq, Repr

/-- Merging one fragment into the pending record:
`getattr(pending, data_field).extend(...)` and `pending.arr_size += ...`;
every other field of `pending` is left as it was. -/
def combineRecords (p item : SRecord) : SRecord :=
  { p with mdata := p.mdata ++ item.mdata, arr_size := p.arr_size + item.arr_size }

@[simp] lemma combineRecords_serial (p item : SRecord) :
    (combineRecords p item).serial_number = p.serial_number := rfl

/-! ## `ParserWorker.merge_consecutive_items` (parser_worker.py 210-234) -/

/-- The loop over `raw_items[1:]` with the running `pending` record. -/
def mergeGo (pending : SRecord) : List SRecord → List SRecord
  | [] => [pending]
  | item :: rest =>
    if pending.serial_number = item.serial_number then
      mergeGo (combineRecords pending item) rest
    else
      pending :: mergeGo item rest

def merge_consecutive_items : List SRecord → List SRecord
  | [] => []
  | x :: xs => mergeGo x xs

/-! Claim-side description for C6: split the list into maximal runs of
consecutive records sharing a `serial_number`, and collapse each run into a
single record by folding `combineRecords` over it. -/

/-- Longest prefix of records whose `serial_number` equals `s`, plus the
remainder. -/
def takeRun (s : Option Int) : List SRecord → List SRecord × List SRecord
  | [] => ([], [])
  | x :: xs =>
    if x.serial_number = s then
      (x :: (takeRun s xs).1, (takeRun s xs).2)
    else ([], x :: xs)

lemma takeRun_snd_length (s : Option Int) (xs : List SRecord) :
    (takeRun s xs).2.length ≤ xs.length := by
  induction xs with
  | nil => simp [takeRun]
  | cons x xs ih =>
    simp only [takeRun]
    split
    · simpa using Nat.le_succ_of_le ih
    · simp

/-- Maximal runs of consecutive records with equal `serial_number`. -/
def serialRuns (l : List SRecord) : List (List SRecord) :=
  match l with
  | [] => []
  | x :: xs =>
    (x :: (takeRun x.serial_number xs).1) :: serialRuns (takeRun x.serial_number xs).2
termination_by l.length
decreasing_by
  exact Nat.lt_succ_of_le (takeRun_snd_length _ _)

/-- Collapse one (nonempty) run into a single record. -/
def collapseRun : List SRecord → SRecord
  | [] => ⟨none, 0, [], 0⟩
  | h :: t => t.foldl combineRecords h

lemma serialRuns_nil : serialRuns [] = [] := by simp [serialRuns]

lemma serialRuns_cons (x : SRecord) (xs : List SRecord) :
    serialRuns (x :: xs) =
      (x :: (takeRun x.serial_number xs).1) ::
        serialRuns (takeRun x.serial_number xs).2 := by
  simp [serialRuns]

lemma mergeGo_eq_runs (xs : List SRecord) :
    ∀ p : SRecord,
      mergeGo p xs =
        (takeRun p.serial_number xs).1.foldl combineRecords p ::
          (serialRuns (takeRun p.serial_number xs).2).map collapseRun := by
  induction xs with
  | nil => intro p; simp [mergeGo, takeRun, serialRuns_nil]
  | cons x xs ih =>
    intro p
    by_cases h : p.serial_number = x.serial_number
    · have hx : x.serial_number = p.serial_number := h.symm
      simp only [mergeGo, if_pos h, takeRun, if_pos hx, List.foldl_cons]
      rw [ih (combineRecords p x)]
      simp
    · have hx : ¬ x.serial_number = p.serial_number := fun e => h e.symm
      simp only [mergeGo, if_neg h, takeRun, if_neg hx, List.foldl_nil]
      rw [ih x, serialRuns_cons]
      simp [collapseRun]

/-- **C6** — `merge_consecutive_items` merges each maximal run of
consecutive records sharing a `serial_number` into one record (concatenating
the designated data field, summing `arr_size`, a differing serial number
flushing the pending record), and three consecutive records with serial
numbers `[5, 5, 7]` yield exactly two output records, the first carrying the
combined sample count of the first two. -/
theorem C6_merge_consecutive_items :
    (∀ raw : List SRecord,
        merge_consecutive_items raw = (serialRuns raw).map collapseRun) ∧
      merge_consecutive_items
          [⟨some 5, 2, [1, 2], 10⟩, ⟨some 5, 3, [3], 11⟩, ⟨some 7, 4, [9], 12⟩] =
        [⟨some 5, 2 + 3, [1, 2] ++ [3], 10⟩, ⟨some 7, 4, [9], 12⟩] := by
  constructor
  · intro raw
    cases raw with
    | nil => simp [merge_consecutive_items, serialRuns_nil]
    | cons x xs =>
      rw [show merge_consecutive_items (x :: xs) = mergeGo x xs from rfl,
        mergeGo_eq_runs, serialRuns_cons]
      simp [collapseRun]
  · decide

/-! ## `_build_batches` (parser_legacy.py 68-97)

The Python source walks `enumerate(frames)` mutating `batches`,
`pending_frames`, `pending_start_idx`; here the loop is a recursion whose
arguments are exactly those loop variables plus the current index. -/

structure FrameMeta where
  cs : Nat
  cl : Nat
  dl : Nat
  nl : Bool
deriving DecidableEq, Repr

structure BatchMeta where
  batch_id : Nat
  start_frame_idx : Nat
  end_frame_idx : Nat
  compressed_bytes : Nat
  frames : List FrameMeta
deriving DecidableEq, Repr

def MIN_BATCH_FRAMES : Nat := 10

def buildBatchesGo (minB : Nat) :
    List FrameMeta → Nat → List BatchMeta → List FrameMeta → Nat → List BatchMeta
  | [], idx, batches, pending, pending_start =>
    -- `if pending_frames:` — trailing partial batch
    if pending.isEmpty then batches
    else
      batches ++ [{ batch_id := batches.length, start_frame_idx := pending_start,
                    end_frame_idx := idx - 1,
                    compressed_bytes := (pending.map (·.cl)).sum,
                    frames := pending }]
  | frame :: rest, idx, batches, pending, pending_start =>
    let pending_start' := if pending.isEmpty then idx else pending_start
    let pending' := pending ++ [frame]
    if minB ≤ pending'.length ∧ frame.nl then
      buildBatchesGo minB rest (idx + 1)
        (batches ++ [{ batch_id := batches.length, start_frame_idx := pending_start',
                       end_frame_idx := idx,
                       compressed_bytes := (pending'.map (·.cl)).sum,
                       frames := pending' }])
        [] pending_start'
    else
      buildBatchesGo minB rest (idx + 1) batches pending' pending_start'

/-- `_build_batches(frames, min_batch_frames)`. -/
def build_batches (frames : List FrameMeta) (minB : Nat := MIN_BATCH_FRAMES) :
    List BatchMeta :=
  buildBatchesGo minB frames 0 [] [] 0

/-- The closing condition of the batch loop:
`len(pending_frames) >= min_batch_frames and frame["nl"]` for the most
recently appended frame. -/
def closeCond (minB : Nat) (l : List FrameMeta) : Prop :=
  minB ≤ l.length ∧ l.getLast?.map (·.nl) = some true

instance (minB : Nat) (l : List FrameMeta) : Decidable (closeCond minB l) := by
  unfold closeCond; infer_instance

lemma buildBatchesGo_flatten (minB : Nat) (rest : List FrameMeta) :
    ∀ (idx : Nat) (batches : List BatchMeta) (pending : List FrameMeta)
      (pstart : Nat),
      ((buildBatchesGo minB rest idx batches pending pstart).map (·.frames)).flatten
        = (batches.map (·.frames)).flatten ++ pending ++ rest := by
  induction rest with
  | nil =>
    intro idx batches pending pstart
    simp only [buildBatchesGo]
    split
    · next hp => simp [List.isEmpty_iff.mp hp]
    · simp
  | cons f rest ih =>
    intro idx batches pending pstart
    simp only [buildBatchesGo]
    split
    · rw [ih]; simp
    · rw [ih]; simp

lemma buildBatchesGo_closed (minB : Nat) (rest : List FrameMeta) :
    ∀ (idx : Nat) (batches : List BatchMeta) (pending : List FrameMeta)
      (pstart : Nat),
      (∀ b ∈ batches, closeCond minB b.frames) →
      ∀ b ∈ (buildBatchesGo minB rest idx batches pending pstart).dropLast,
        closeCond minB b.frames := by
  induction rest with
  | nil =>
    intro idx batches pending pstart hinv b hb
    simp only [buildBatchesGo] at hb
    revert hb
    split
    · intro hb; exact hinv b (List.dropLast_subset _ hb)
    · intro hb
      rw [List.dropLast_concat] at hb
      exact hinv b hb
  | cons f rest ih =>
    intro idx batches pending pstart hinv b hb
    simp only [buildBatchesGo] at hb
    revert hb
    split
    · next hc =>
      intro hb
      refine ih _ _ _ _ ?_ b hb
      intro b' hb'
      rcases List.mem_append.mp hb' with h' | h'
      · exact hinv b' h'
      · rcases List.mem_singleton.mp h' with rfl
        exact ⟨hc.1, by simp [hc.2]⟩
    · intro hb
      exact ih _ _ _ _ hinv b hb

/-- Proper-prefix minimality carried by the pending buffer: no nonempty
prefix of the pending frames satisfies the closing condition. -/
def PendInv (minB : Nat) (pending : List FrameMeta) : Prop :=
  ∀ k, 0 < k → k ≤ pending.length → ¬ closeCond minB (pending.take k)

lemma buildBatchesGo_minimal (minB : Nat) (rest : List FrameMeta) :
    ∀ (idx : Nat) (batches : List BatchMeta) (pending : List FrameMeta)
      (pstart : Nat),
      (∀ b ∈ batches, ∀ k, 0 < k → k < b.frames.length →
          ¬ closeCond minB (b.frames.take k)) →
      PendInv minB pending →
      ∀ b ∈ buildBatchesGo minB rest idx batches pending pstart,
        ∀ k, 0 < k → k < b.frames.length → ¬ closeCond minB (b.frames.take k) := by
  induction rest with
  | nil =>
    intro idx batches pending pstart hinv hpend b hb
    simp only [buildBatchesGo] at hb
    revert hb
    split
    · intro hb; exact hinv b hb
    · intro hb
      rcases List.mem_append.mp hb with h' | h'
      · exact hinv b h'
      · rcases List.mem_singleton.mp h' with rfl
        intro k hk0 hk
        exact hpend k hk0 (Nat.le_of_lt hk)
  | cons f rest ih =>
    intro idx batches pending pstart hinv hpend b hb
    simp only [buildBatchesGo] at hb
    revert hb
    split
    · next hc =>
      intro hb
      refine ih _ _ _ _ ?_ ?_ b hb
      · intro b' hb'
        rcases List.mem_append.mp hb' with h' | h'
        · exact hinv b' h'
        · rcases List.mem_singleton.mp h' with rfl
          intro k hk0 hk
          simp only at hk ⊢
          have hkp : k ≤ pending.length := by
            have : k < pending.length + 1 := by simpa using hk
            omega
          rw [List.take_append_of_le_length hkp]
          exact hpend k hk0 hkp
      · intro k hk0 hk
        simp at hk
        omega
    · next hc =>
      intro hb
      refine ih _ _ _ _ hinv ?_ b hb
      intro k hk0 hk
      rcases Nat.lt_or_ge k (pending.length + 1) with hlt | hge
      · have hkp : k ≤ pending.length := Nat.lt_succ_iff.mp hlt
        rw [List.take_append_of_le_length hkp]
        exact hpend k hk0 hkp
      · have hk' : k = pending.length + 1 := by
          have : k ≤ pending.length + 1 := by simpa using hk
          omega
        subst hk'
        rw [show pending.length + 1 = (pending ++ [f]).length by simp,
          List.take_length]
        intro hcc
        exact hc ⟨by simpa using hcc.1, by simpa using hcc.2⟩

lemma buildBatchesGo_ids (minB : Nat) (rest : List FrameMeta) :
    ∀ (idx : Nat) (batches : List BatchMeta) (pending : List FrameMeta)
      (pstart : Nat),
      batches.map (·.batch_id) = List.range batches.length →
      (buildBatchesGo minB rest idx batches pending pstart).map (·.batch_id)
        = List.range (buildBatchesGo minB rest idx batches pending pstart).length := by
  induction rest with
  | nil =>
    intro idx batches pending pstart hids
    simp only [buildBatchesGo]
    split
    · exact hids
    · simp [hids, List.range_succ]
  | cons f rest ih =>
    intro idx batches pending pstart hids
    simp only [buildBatchesGo]
    split
    · exact ih _ _ _ _ (by simp [hids, List.range_succ])
    · exact ih _ _ _ _ hids

/-- **C3** — `_build_batches` walks the frames in order accumulating them
into the current batch; every input frame appears in exactly one batch, in
order (the concatenation of the batches' frame lists is the input); every
non-final batch satisfies the closing condition (at least
`min_frames_per_batch` frames and the most recently added frame has
`nl = true`); no batch closes earlier (no proper nonempty prefix of any
batch satisfies the closing condition — the trailing run that never
satisfied it is still emitted as the final batch); and batch ids are
assigned in ascending order `0, 1, 2, …`. -/
theorem C3_build_batches (frames : List FrameMeta) (minB : Nat) :
    ((build_batches frames minB).map (·.frames)).flatten = frames
      ∧ (∀ b ∈ (build_batches frames minB).dropLast, closeCond minB b.frames)
      ∧ (∀ b ∈ build_batches frames minB, ∀ k, 0 < k → k < b.frames.length →
          ¬ closeCond minB (b.frames.take k))
      ∧ (build_batches frames minB).map (·.batch_id)
          = List.range (build_batches frames minB).length := by
  refine ⟨?_, ?_, ?_, ?_⟩
  · simpa using buildBatchesGo_flatten minB frames 0 [] [] 0
  · exact buildBatchesGo_closed minB frames 0 [] [] 0 (by simp)
  · exact buildBatchesGo_minimal minB frames 0 [] [] 0 (by simp)
      (by intro k hk0 hk; simp at hk; omega)
  · exact buildBatchesGo_ids minB frames 0 [] [] 0 (by simp)

/-- Witness for C3 at a concrete frame list (`minB = 2`): the partition
property applied at a concrete input. -/
theorem C3_build_batches_witness :
    ((build_batches [⟨0, 1, 1, false⟩, ⟨1, 1, 1, true⟩, ⟨2, 1, 1, false⟩] 2).map
        (·.frames)).flatten
      = [⟨0, 1, 1, false⟩, ⟨1, 1, 1, true⟩, ⟨2, 1, 1, false⟩] :=
  (C3_build_batches [⟨0, 1, 1, false⟩, ⟨1, 1, 1, true⟩, ⟨2, 1, 1, false⟩] 2).1

/-! ## `_create_progress_cb` (parser_legacy.py 289-300, parser_v2.py 62-86)

Both services build the same closure: `_last_reported = [0]`, and the
callback forwards `progress` to the in-memory progress store only when
`progress > _last_reported[0]`, updating the cell.  The closure is modelled
as a fold over the sequence of reported values, collecting the forwarded
(published) ones. -/

def progress_cb_step (last : Int) (p : Int) : Int × Option Int :=
  if p ≤ last then (last, none) else (p, some p)

/-- One reported value: update the `_last_reported` cell and record the
value forwarded to `parse_progress.update`, if any. -/
def pubStep (acc : Int × List Int) (p : Int) : Int × List Int :=
  ((progress_cb_step acc.1 p).1, acc.2 ++ ((progress_cb_step acc.1 p).2).toList)

def publishedRun (ps : List Int) : Int × List Int := ps.foldl pubStep (0, [])

def published (ps : List Int) : List Int := (publishedRun ps).2

lemma publishedRun_inv (ps : List Int) :
    ∀ (l : Int) (out : List Int),
      out.Pairwise (· < ·) → (∀ x ∈ out, x ≤ l) →
      (ps.foldl pubStep (l, out)).2.Pairwise (· < ·)
        ∧ ∀ x ∈ (ps.foldl pubStep (l, out)).2, x ≤ (ps.foldl pubStep (l, out)).1 := by
  induction ps with
  | nil => intro l out h1 h2; exact ⟨h1, h2⟩
  | cons p ps ih =>
    intro l out h1 h2
    by_cases hp : p ≤ l
    · simpa [pubStep, progress_cb_step, hp] using ih l out h1 h2
    · have hlp : l < p := lt_of_not_le hp
      have h1' : (out ++ [p]).Pairwise (· < ·) := by
        refine List.pairwise_append.mpr ⟨h1, by simp, ?_⟩
        intro x hx y hy
        rcases List.mem_singleton.mp hy with rfl
        exact lt_of_le_of_lt (h2 x hx) hlp
      have h2' : ∀ x ∈ out ++ [p], x ≤ p := by
        intro x hx
        rcases List.mem_append.mp hx with h | h
        · exact le_of_lt (lt_of_le_of_lt (h2 x h) hlp)
        · rcases List.mem_singleton.mp h with rfl; exact le_refl _
      simpa [pubStep, progress_cb_step, hp] using ih p (out ++ [p]) h1' h2'

/-! ## `StorageService.verify_and_rebuild_index` (storage.py 92-274)

The rebuild fully decompresses the blob, re-partitions the decompressed
byte stream into frames with a soft-minimum / hard-maximum newline rule,
recompresses each frame independently, and — only when the recomputed MD5
matches — atomically replaces the blob with the rewritten bytes.
zstd compression and MD5 are abstracted as function parameters
(`compress`, `md5`); the invariants hold for every choice. -/

def MIN_CHUNK_SIZE : Nat := 2 * 1024 * 1024
def MAX_CHUNK_SIZE : Nat := 4 * 1024 * 1024

/-- `raw_buffer.find(b'\n', start, stop)` — index of the first newline byte
in `[start, stop)`, if any. -/
def findNewline (buf : List Nat) (start stop : Nat) : Option Nat :=
  (((buf.take stop).drop start).findIdx? (· == 10)).map (· + start)

/-- Where the next frame is cut.  While at least `MAX_CHUNK_SIZE` bytes are
buffered, the main loop searches `[MIN, MAX)` for a newline and cuts just
after it, else forcibly at `MAX`; after end of stream the tail loop cuts at
`min(len, MAX)` unless a newline is found in `[MIN, min(len, MAX))`.  The
main loop drains the buffer below `MAX` after every 64 KiB read, so the cut
positions are a pure function of the remaining decompressed bytes. -/
def cutPos (r : List Nat) : Nat :=
  if MAX_CHUNK_SIZE ≤ r.length then
    match findNewline r MIN_CHUNK_SIZE MAX_CHUNK_SIZE with
    | some p => p + 1
    | none => MAX_CHUNK_SIZE
  else if MIN_CHUNK_SIZE ≤ r.length then
    match findNewline r MIN_CHUNK_SIZE r.length with
    | some p => p + 1
    | none => r.length
  else r.length

/-- `ends_with_newline`: true exactly when the last byte of the cut chunk is
`\n` (both loops reduce to this: a found newline is the chunk's last byte,
and otherwise the code checks `raw_buffer[cut_pos-1] == 10`). -/
def nlFlag (r : List Nat) (cut : Nat) : Bool :=
  decide (0 < cut) && (r.getD (cut - 1) 0 == 10)

lemma cutPos_pos (r : List Nat) (h : r ≠ []) : 1 ≤ cutPos r := by
  have hl : 1 ≤ r.length := List.length_pos.mpr h
  unfold cutPos
  split
  · split
    · omega
    · norm_num [MAX_CHUNK_SIZE]
  · split
    · split
      · omega
      · exact hl
    · exact hl

/-- The frame partition of the decompressed stream. -/
def cutChunks (r : List Nat) : List (List Nat × Bool) :=
  match h : r with
  | [] => []
  | _ :: _ =>
    (r.take (cutPos r), nlFlag r (cutPos r)) :: cutChunks (r.drop (cutPos r))
termination_by r.length
decreasing_by
  have h1 : 1 ≤ cutPos r := cutPos_pos r (by simp [h])
  have h2 : 0 < r.length := by simp [h]
  simp only [List.length_drop, ← h]
  omega

structure RebuildFrame where
  cs : Nat
  cl : Nat
  ds : Nat
  dl : Nat
  nl : Bool
deriving DecidableEq, Repr

/-- The per-frame accumulation: `cs := upload_offset`, `cl := len(compressed)`,
`ds := offset`, `dl := len(chunk_data)`, then both offsets advance. -/
def buildFrames (compress : List Nat → List Nat) :
    List (List Nat × Bool) → Nat → Nat → List RebuildFrame
  | [], _, _ => []
  | (chunk, nl) :: rest, upload_offset, offset =>
    { cs := upload_offset, cl := (compress chunk).length, ds := offset,
      dl := chunk.length, nl := nl }
      :: buildFrames compress rest (upload_offset + (compress chunk).length)
          (offset + chunk.length)

structure RebuiltIndex where
  version : Nat
  frameSize : Nat
  maxFrameSize : Nat
  lineAligned : Bool
  originalSize : Nat
  compressedSize : Nat
  frames : List RebuildFrame
deriving DecidableEq, Repr

def sumCl (fs : List RebuildFrame) : Nat := (fs.map (·.cl)).sum

def sumDl (fs : List RebuildFrame) : Nat := (fs.map (·.dl)).sum

/-- The bytes written to the rebuilt blob file: the independently
compressed frames, in order. -/
def rebuiltBlob (compress : List Nat → List Nat) (data : List Nat) : List Nat :=
  ((cutChunks data).map (fun c => compress c.1)).flatten

/-- The `complete_new_index` object built after a hash match. -/
def rebuildIndexOf (compress : List Nat → List Nat) (data : List Nat) :
    RebuiltIndex :=
  let frames := buildFrames compress (cutChunks data) 0 0
  { version := 2, frameSize := MIN_CHUNK_SIZE, maxFrameSize := MAX_CHUNK_SIZE,
    lineAligned := true, originalSize := sumDl frames,
    compressedSize := sumCl frames, frames := frames }

/-- Frame ranges are contiguous starting at `off`. -/
def contiguousFrom (off : Nat) : List RebuildFrame → Bool
  | [] => true
  | f :: rest => (f.cs == off) && contiguousFrom (off + f.cl) rest

lemma buildFrames_contiguous (compress : List Nat → List Nat)
    (chunks : List (List Nat × Bool)) :
    ∀ up off, contiguousFrom up (buildFrames compress chunks up off) = true := by
  induction chunks with
  | nil => intro up off; simp [buildFrames, contiguousFrom]
  | cons c rest ih =>
    intro up off
    simp [buildFrames, contiguousFrom, ih]

lemma buildFrames_sumCl (compress : List Nat → List Nat)
    (chunks : List (List Nat × Bool)) :
    ∀ up off, sumCl (buildFrames compress chunks up off)
      = (chunks.map (fun c => (compress c.1).length)).sum := by
  induction chunks with
  | nil => intro up off; simp [buildFrames, sumCl]
  | cons c rest ih =>
    intro up off
    simp [buildFrames, sumCl, ih up off]
    simp [sumCl] at ih
    simp [ih]

/-- **C2** — every frame index produced by a successful
`verify_and_rebuild_index` satisfies: `frames[0].cs = 0` and each later
frame's `cs` is the previous frame's `cs + cl` (this is `contiguousFrom 0`);
the sum of all `cl` equals the recorded `compressedSize`, which equals — and
hence does not exceed — the physical size of the rewritten blob file; and
the index carries `lineAligned = true`. -/
theorem C2_rebuilt_index_invariants (compress : List Nat → List Nat)
    (data : List Nat) :
    contiguousFrom 0 (rebuildIndexOf compress data).frames = true
      ∧ sumCl (rebuildIndexOf compress data).frames
          = (rebuildIndexOf compress data).compressedSize
      ∧ (rebuildIndexOf compress data).compressedSize
          = (rebuiltBlob compress data).length
      ∧ sumCl (rebuildIndexOf compress data).frames
          ≤ (rebuiltBlob compress data).length
      ∧ (rebuildIndexOf compress data).lineAligned = true := by
  have hsum : sumCl (buildFrames compress (cutChunks data) 0 0)
      = (rebuiltBlob compress data).length := by
    rw [buildFrames_sumCl, rebuiltBlob, List.length_flatten, List.map_map]
    rfl
  refine ⟨?_, rfl, ?_, ?_, rfl⟩
  · exact buildFrames_contiguous compress (cutChunks data) 0 0
  · exact hsum
  · exact le_of_eq hsum

/-! ## `verify_and_rebuild_index` as a file-system transition (C8)

The blob-file state holds the original file's bytes (`none` = missing) and
the temporary rebuilt file.  `decompress = none` models the
`except Exception` path (any failure while decompressing/rewriting), whose
handler removes the temporary file and returns without touching the
original.  The `os.replace(temp_path, file_path)` on the success path is
modelled as the single-step replacement of the original bytes. -/

structure VfState where
  original : Option (List Nat)
  temp : Option (List Nat)
deriving DecidableEq, Repr

structure VfResult where
  valid : Bool
  rebuilt : Bool
  frame_index : Option RebuiltIndex
  file_size_bytes : Nat
deriving DecidableEq, Repr

def verify_and_rebuild_index (compress : List Nat → List Nat)
    (decompress : List Nat → Option (List Nat)) (md5 : List Nat → String)
    (fs : VfState) (expected_md5 : String) : VfResult × VfState :=
  match fs.original with
  | none =>
    -- `if not file_path.exists()`: fail before any temp file is created
    ({ valid := false, rebuilt := false, frame_index := none, file_size_bytes := 0 },
      fs)
  | some blob =>
    match decompress blob with
    | none =>
      -- `except Exception`: remove temp, leave the original untouched
      ({ valid := false, rebuilt := false, frame_index := none, file_size_bytes := 0 },
        { original := fs.original, temp := none })
    | some data =>
      if md5 data ≠ expected_md5 then
        -- integrity check failed: remove temp, no replacement
        ({ valid := false, rebuilt := false, frame_index := none, file_size_bytes := 0 },
          { original := fs.original, temp := none })
      else
        -- `os.replace(temp_path, file_path)`
        ({ valid := true, rebuilt := true,
           frame_index := some (rebuildIndexOf compress data),
           file_size_bytes := sumDl (rebuildIndexOf compress data).frames },
          { original := some (rebuiltBlob compress data), temp := none })

/-- **C8** — if the recomputed hash differs from `expected_md5` the call
returns `valid = false` with no frame index, the temporary file is removed
and the original blob is unchanged; an exception during rebuild also leaves
the original untouched; and the original is replaced (with the rewritten
standardized bytes) only on a hash match. -/
theorem C8_verify_and_rebuild_safety (compress : List Nat → List Nat)
    (decompress : List Nat → Option (List Nat)) (md5 : List Nat → String)
    (fs : VfState) (expected_md5 : String) :
    (∀ blob data, fs.original = some blob → decompress blob = some data →
        md5 data ≠ expected_md5 →
        (verify_and_rebuild_index compress decompress md5 fs expected_md5).1.valid
            = false
          ∧ (verify_and_rebuild_index compress decompress md5 fs
              expected_md5).1.frame_index = none
          ∧ (verify_and_rebuild_index compress decompress md5 fs
              expected_md5).2.original = fs.original
          ∧ (verify_and_rebuild_index compress decompress md5 fs
              expected_md5).2.temp = none)
      ∧ (∀ blob, fs.original = some blob → decompress blob = none →
          (verify_and_rebuild_index compress decompress md5 fs
            expected_md5).2.original = fs.original)
      ∧ ((verify_and_rebuild_index compress decompress md5 fs
            expected_md5).2.original ≠ fs.original →
          ∃ data, (∃ blob, fs.original = some blob ∧ decompress blob = some data)
            ∧ md5 data = expected_md5
            ∧ (verify_and_rebuild_index compress decompress md5 fs
                expected_md5).1.valid = true
            ∧ (verify_and_rebuild_index compress decompress md5 fs
                expected_md5).2.original = some (rebuiltBlob compress data)) := by
  refine ⟨?_, ?_, ?_⟩
  · intro blob data hb hd hm
    simp [verify_and_rebuild_index, hb, hd, hm]
  · intro blob hb hd
    simp [verify_and_rebuild_index, hb, hd]
  · intro hchanged
    rcases hfs : fs.original with _ | blob
    · exact absurd (by simp [verify_and_rebuild_index, hfs]) hchanged
    · rcases hd : decompress blob with _ | data
      · exact absurd (by simp [verify_and_rebuild_index, hfs, hd]) hchanged
      · by_cases hm : md5 data ≠ expected_md5
        · exact absurd (by simp [verify_and_rebuild_index, hfs, hd, hm]) hchanged
        · push_neg at hm
          refine ⟨data, ⟨blob, rfl, hd⟩, hm, ?_, ?_⟩
          · simp [verify_and_rebuild_index, hfs, hd, hm]
          · simp [verify_and_rebuild_index, hfs, hd, hm]

/-- Witness for C8: a concrete hash-mismatch run (identity compression,
identity decompression, constant hash `"h"`, expected `"x"`). -/
theorem C8_verify_and_rebuild_safety_witness :
    (verify_and_rebuild_index id (fun b => some b) (fun _ => "h")
        ⟨some [49], some [7]⟩ "x").1.valid = false
      ∧ (verify_and_rebuild_index id (fun b => some b) (fun _ => "h")
          ⟨some [49], some [7]⟩ "x").2.original = some [49]
      ∧ (verify_and_rebuild_index id (fun b => some b) (fun _ => "h")
          ⟨some [49], some [7]⟩ "x").2.temp = none := by
  have h := (C8_verify_and_rebuild_safety id (fun b => some b) (fun _ => "h")
      ⟨some [49], some [7]⟩ "x").1 [49] [49] rfl rfl (by decide)
  exact ⟨h.1, h.2.2.1, h.2.2.2⟩

/-! ## `ACC_Raw_Data.from_bytes` / `PPG_Raw_Data.from_bytes`
(data_structures/sensor_data.py 34-91 and 114-167)

`struct.unpack_from(fmt, data, offset)` raises `struct.error` exactly when
`len(data) - offset < calcsize(fmt)`; the Python `try/except struct.error`
around the sequential unpacks means decoding stops at the first failing
unpack and the partially filled instance is returned.  Each `_unpack_from`
call is modelled by `takeBytes?` (`none` = `struct.error`), and the
`except` handler by returning the instance built so far. -/

def takeBytes? (data : List Nat) (off n : Nat) : Option (List Nat) :=
  if off + n ≤ data.length then some ((data.drop off).take n) else none

lemma takeBytes?_none {data : List Nat} {off n : Nat}
    (h : data.length < off + n) : takeBytes? data off n = none := by
  simp only [takeBytes?, ite_eq_right_iff]
  omega

lemma takeBytes?_some {data : List Nat} {off n : Nat}
    (h : off + n ≤ data.length) :
    takeBytes? data off n = some ((data.drop off).take n) := by
  simp [takeBytes?, h]

def leU16 (b0 b1 : Nat) : Nat := b0 + 256 * b1

def beU16 (b0 b1 : Nat) : Nat := 256 * b0 + b1

def beU32 (b0 b1 b2 b3 : Nat) : Nat := 256 * (256 * (256 * b0 + b1) + b2) + b3

/-- `>{n}H`: big-endian 16-bit values, two bytes each. -/
def beU16List : List Nat → List Nat
  | b0 :: b1 :: rest => beU16 b0 b1 :: beU16List rest
  | _ => []

/-- `>{n}I`: big-endian 32-bit values, four bytes each. -/
def beU32List : List Nat → List Nat
  | b0 :: b1 :: b2 :: b3 :: rest => beU32 b0 b1 b2 b3 :: beU32List rest
  | _ => []

/-- `zip(s[::3], s[1::3], s[2::3])` — consecutive triples, incomplete tail
dropped (for lengths not divisible by 3 the strided zip truncates the same
way). -/
def zipTriples : List Int → List (Int × Int × Int)
  | a :: b :: c :: rest => (a, b, c) :: zipTriples rest
  | _ => []

structure ACC_Raw_Data where
  timestamp : String := ""
  unix_timestamp : Int := 0
  serial_number : Option Nat := none
  ms : Option Nat := none
  acc_scale : Option Nat := none
  reserved : Option (List Nat) := some (List.replicate 7 0)
  acc_type : Nat := 0
  arr_bit : Nat := 0
  arr_size : Nat := 0
  freq : Nat := 0
  tolerance : Nat := 0
  data : List Nat := List.replicate 5 0
  acc_data : List (Int × Int × Int) := []
deriving DecidableEq, Repr

/-- The `acc_xyz_num` unpack (`>{n}H`, values offset by `-32768`, zipped
into `(x, y, z)` triples). -/
def ACC_Raw_Data.fromBytesAccData (data : List Nat) (off : Nat) (v2 : Bool)
    (inst : ACC_Raw_Data) : ACC_Raw_Data :=
  let acc_xyz_num := min (if v2 then 105 else 69) (inst.arr_size * 3)
  if 0 < acc_xyz_num then
    match takeBytes? data off (2 * acc_xyz_num) with
    | none => inst
    | some raw =>
      let signed := (beU16List raw).map (fun v => (v : Int) - 32768)
      { inst with acc_data := zipTriples signed }
  else inst

/-- The common block `<B B H H B 5B` (12 bytes), then the sample array. -/
def ACC_Raw_Data.fromBytesCommon (data : List Nat) (off : Nat) (v2 : Bool)
    (inst : ACC_Raw_Data) : ACC_Raw_Data :=
  match takeBytes? data off 12 with
  | none => inst
  | some c =>
    ACC_Raw_Data.fromBytesAccData data (off + 12) v2
      { inst with
        acc_type := c.getD 0 0, arr_bit := c.getD 1 0,
        arr_size := leU16 (c.getD 2 0) (c.getD 3 0),
        freq := leU16 (c.getD 4 0) (c.getD 5 0),
        tolerance := c.getD 6 0, data := c.drop 7 }

/-- `ACC_Raw_Data.from_bytes(data, rawdata_v2, unix_timestamp, timestamp)`:
optional RAWDATA_V2 header `<B H B 7B` (11 bytes), common block, samples. -/
def ACC_Raw_Data.from_bytes (data : List Nat) (rawdata_v2 : Bool)
    (unix_timestamp : Int) (timestamp : String) : ACC_Raw_Data :=
  let inst : ACC_Raw_Data :=
    { unix_timestamp := unix_timestamp, timestamp := timestamp }
  if rawdata_v2 then
    match takeBytes? data 0 11 with
    | none => inst
    | some hdr =>
      ACC_Raw_Data.fromBytesCommon data 11 true
        { inst with
          serial_number := some (hdr.getD 0 0),
          ms := some (leU16 (hdr.getD 1 0) (hdr.getD 2 0)),
          acc_scale := some (hdr.getD 3 0),
          reserved := some (hdr.drop 4) }
  else ACC_Raw_Data.fromBytesCommon data 0 false inst

structure PPG_Raw_Data where
  timestamp : String := ""
  unix_timestamp : Int := 0
  serial_number : Option Nat := none
  ms : Option Nat := none
  reserved : Option (List Nat) := some (List.replicate 8 0)
  ppg_type : Nat := 0
  arr_bit : Nat := 0
  arr_size : Nat := 0
  freq : Nat := 0
  tolerance : Nat := 0
  data : List Nat := List.replicate 5 0
  ppg_data : List Int := []
deriving DecidableEq, Repr

/-- The `ppg_num` unpack (`>{n}I`, values offset by `-1_000_000`). -/
def PPG_Raw_Data.fromBytesPpgData (data : List Nat) (off : Nat) (v2 : Bool)
    (inst : PPG_Raw_Data) : PPG_Raw_Data :=
  let ppg_num := min (if v2 then 52 else 34) inst.arr_size
  if 0 < ppg_num then
    match takeBytes? data off (4 * ppg_num) with
    | none => inst
    | some raw =>
      { inst with ppg_data := (beU32List raw).map (fun v => (v : Int) - 1000000) }
  else inst

/-- The common block `<B B H H B 5B` (12 bytes), then the sample array. -/
def PPG_Raw_Data.fromBytesCommon (data : List Nat) (off : Nat) (v2 : Bool)
    (inst : PPG_Raw_Data) : PPG_Raw_Data :=
  match takeBytes? data off 12 with
  | none => inst
  | some c =>
    PPG_Raw_Data.fromBytesPpgData data (off + 12) v2
      { inst with
        ppg_type := c.getD 0 0, arr_bit := c.getD 1 0,
        arr_size := leU16 (c.getD 2 0) (c.getD 3 0),
        freq := leU16 (c.getD 4 0) (c.getD 5 0),
        tolerance := c.getD 6 0, data := c.drop 7 }

/-- `PPG_Raw_Data.from_bytes(data, rawdata_v2, unix_timestamp, timestamp)`:
optional RAWDATA_V2 header `<B H 8B` (11 bytes), common block, samples. -/
def PPG_Raw_Data.from_bytes (data : List Nat) (rawdata_v2 : Bool)
    (unix_timestamp : Int) (timestamp : String) : PPG_Raw_Data :=
  let inst : PPG_Raw_Data :=
    { unix_timestamp := unix_timestamp, timestamp := timestamp }
  if rawdata_v2 then
    match takeBytes? data 0 11 with
    | none => inst
    | some hdr =>
      PPG_Raw_Data.fromBytesCommon data 11 true
        { inst with
          serial_number := some (hdr.getD 0 0),
          ms := some (leU16 (hdr.getD 1 0) (hdr.getD 2 0)),
          reserved := some (hdr.drop 3) }
  else PPG_Raw_Data.fromBytesCommon data 0 false inst

lemma ACC_Raw_Data.fromBytesAccData_eq (data : List Nat) (off : Nat)
    (v2 : Bool) (inst : ACC_Raw_Data) :
    ∃ ad, ACC_Raw_Data.fromBytesAccData data off v2 inst
      = { inst with acc_data := ad } := by
  simp only [ACC_Raw_Data.fromBytesAccData]
  repeat' split
  all_goals first
    | exact ⟨inst.acc_data, rfl⟩
    | exact ⟨_, rfl⟩

lemma ACC_Raw_Data.fromBytesCommonAcc_eq (data : List Nat) (off : Nat)
    (v2 : Bool) (inst : ACC_Raw_Data) :
    ∃ a b c d e f g, ACC_Raw_Data.fromBytesCommon data off v2 inst
      = { inst with acc_type := a, arr_bit := b, arr_size := c, freq := d,
                    tolerance := e, data := f, acc_data := g } := by
  unfold ACC_Raw_Data.fromBytesCommon
  split
  · exact ⟨inst.acc_type, inst.arr_bit, inst.arr_size, inst.freq,
      inst.tolerance, inst.data, inst.acc_data, rfl⟩
  · next c heq =>
    rcases ACC_Raw_Data.fromBytesAccData_eq data (off + 12) v2
      { inst with
        acc_type := c.getD 0 0, arr_bit := c.getD 1 0,
        arr_size := leU16 (c.getD 2 0) (c.getD 3 0),
        freq := leU16 (c.getD 4 0) (c.getD 5 0),
        tolerance := c.getD 6 0, data := c.drop 7 } with ⟨ad, had⟩
    exact ⟨_, _, _, _, _, _, ad, had⟩

lemma PPG_Raw_Data.fromBytesPpgData_eq (data : List Nat) (off : Nat)
    (v2 : Bool) (inst : PPG_Raw_Data) :
    ∃ pd, PPG_Raw_Data.fromBytesPpgData data off v2 inst
      = { inst with ppg_data := pd } := by
  simp only [PPG_Raw_Data.fromBytesPpgData]
  repeat' split
  all_goals first
    | exact ⟨inst.ppg_data, rfl⟩
    | exact ⟨_, rfl⟩

lemma PPG_Raw_Data.fromBytesCommonPpg_eq (data : List Nat) (off : Nat)
    (v2 : Bool) (inst : PPG_Raw_Data) :
    ∃ a b c d e f g, PPG_Raw_Data.fromBytesCommon data off v2 inst
      = { inst with ppg_type := a, arr_bit := b, arr_size := c, freq := d,
                    tolerance := e, data := f, ppg_data := g } := by
  unfold PPG_Raw_Data.fromBytesCommon
  split
  · exact ⟨inst.ppg_type, inst.arr_bit, inst.arr_size, inst.freq,
      inst.tolerance, inst.data, inst.ppg_data, rfl⟩
  · next c heq =>
    rcases PPG_Raw_Data.fromBytesPpgData_eq data (off + 12) v2
      { inst with
        ppg_type := c.getD 0 0, arr_bit := c.getD 1 0,
        arr_size := leU16 (c.getD 2 0) (c.getD 3 0),
        freq := leU16 (c.getD 4 0) (c.getD 5 0),
        tolerance := c.getD 6 0, data := c.drop 7 } with ⟨pd, hpd⟩
    exact ⟨_, _, _, _, _, _, pd, hpd⟩

lemma ACC_from_bytes_false (data : List Nat) (u : Int) (t : String) :
    ACC_Raw_Data.from_bytes data false u t
      = ACC_Raw_Data.fromBytesCommon data 0 false
          { unix_timestamp := u, timestamp := t } := rfl

lemma PPG_from_bytes_false (data : List Nat) (u : Int) (t : String) :
    PPG_Raw_Data.from_bytes data false u t
      = PPG_Raw_Data.fromBytesCommon data 0 false
          { unix_timestamp := u, timestamp := t } := rfl

lemma ACC_from_bytes_true_short {data : List Nat} (u : Int) (t : String)
    (h : data.length < 11) :
    ACC_Raw_Data.from_bytes data true u t
      = { unix_timestamp := u, timestamp := t } := by
  simp only [ACC_Raw_Data.from_bytes, if_pos]
  rw [takeBytes?_none (by omega)]

lemma PPG_from_bytes_true_short {data : List Nat} (u : Int) (t : String)
    (h : data.length < 11) :
    PPG_Raw_Data.from_bytes data true u t
      = { unix_timestamp := u, timestamp := t } := by
  simp only [PPG_Raw_Data.from_bytes, if_pos]
  rw [takeBytes?_none (by omega)]

lemma ACC_from_bytes_true_long {data : List Nat} (u : Int) (t : String)
    (h : 11 ≤ data.length) :
    ACC_Raw_Data.from_bytes data true u t
      = ACC_Raw_Data.fromBytesCommon data 11 true
          { unix_timestamp := u, timestamp := t,
            serial_number := some ((data.take 11).getD 0 0),
            ms := some (leU16 ((data.take 11).getD 1 0) ((data.take 11).getD 2 0)),
            acc_scale := some ((data.take 11).getD 3 0),
            reserved := some ((data.take 11).drop 4) } := by
  simp only [ACC_Raw_Data.from_bytes, if_pos]
  rw [takeBytes?_some (by omega)]
  simp [List.drop_zero]

lemma PPG_from_bytes_true_long {data : List Nat} (u : Int) (t : String)
    (h : 11 ≤ data.length) :
    PPG_Raw_Data.from_bytes data true u t
      = PPG_Raw_Data.fromBytesCommon data 11 true
          { unix_timestamp := u, timestamp := t,
            serial_number := some ((data.take 11).getD 0 0),
            ms := some (leU16 ((data.take 11).getD 1 0) ((data.take 11).getD 2 0)),
            reserved := some ((data.take 11).drop 3) } := by
  simp only [PPG_Raw_Data.from_bytes, if_pos]
  rw [takeBytes?_some (by omega)]
  simp [List.drop_zero]

lemma ACC_common_short {data : List Nat} {off : Nat} {v2 : Bool}
    {inst : ACC_Raw_Data} (h : data.length < off + 12) :
    ACC_Raw_Data.fromBytesCommon data off v2 inst = inst := by
  simp only [ACC_Raw_Data.fromBytesCommon]
  rw [takeBytes?_none h]

lemma PPG_common_short {data : List Nat} {off : Nat} {v2 : Bool}
    {inst : PPG_Raw_Data} (h : data.length < off + 12) :
    PPG_Raw_Data.fromBytesCommon data off v2 inst = inst := by
  simp only [PPG_Raw_Data.fromBytesCommon]
  rw [takeBytes?_none h]

lemma ACC_common_long {data : List Nat} {off : Nat} {v2 : Bool}
    {inst : ACC_Raw_Data} (h : off + 12 ≤ data.length) :
    ACC_Raw_Data.fromBytesCommon data off v2 inst
      = ACC_Raw_Data.fromBytesAccData data (off + 12) v2
          { inst with
            acc_type := ((data.drop off).take 12).getD 0 0,
            arr_bit := ((data.drop off).take 12).getD 1 0,
            arr_size := leU16 (((data.drop off).take 12).getD 2 0)
              (((data.drop off).take 12).getD 3 0),
            freq := leU16 (((data.drop off).take 12).getD 4 0)
              (((data.drop off).take 12).getD 5 0),
            tolerance := ((data.drop off).take 12).getD 6 0,
            data := ((data.drop off).take 12).drop 7 } := by
  simp only [ACC_Raw_Data.fromBytesCommon]
  rw [takeBytes?_some h]

lemma PPG_common_long {data : List Nat} {off : Nat} {v2 : Bool}
    {inst : PPG_Raw_Data} (h : off + 12 ≤ data.length) :
    PPG_Raw_Data.fromBytesCommon data off v2 inst
      = PPG_Raw_Data.fromBytesPpgData data (off + 12) v2
          { inst with
            ppg_type := ((data.drop off).take 12).getD 0 0,
            arr_bit := ((data.drop off).take 12).getD 1 0,
            arr_size := leU16 (((data.drop off).take 12).getD 2 0)
              (((data.drop off).take 12).getD 3 0),
            freq := leU16 (((data.drop off).take 12).getD 4 0)
              (((data.drop off).take 12).getD 5 0),
            tolerance := ((data.drop off).take 12).getD 6 0,
            data := ((data.drop off).take 12).drop 7 } := by
  simp only [PPG_Raw_Data.fromBytesCommon]
  rw [takeBytes?_some h]

lemma ACC_accdata_none {data : List Nat} {off : Nat} {v2 : Bool}
    {inst : ACC_Raw_Data}
    (h0 : 0 < min (if v2 then 105 else 69) (inst.arr_size * 3))
    (h : data.length < off + 2 * min (if v2 then 105 else 69) (inst.arr_size * 3)) :
    ACC_Raw_Data.fromBytesAccData data off v2 inst = inst := by
  simp only [ACC_Raw_Data.fromBytesAccData]
  rw [if_pos h0, takeBytes?_none h]

lemma PPG_ppgdata_none {data : List Nat} {off : Nat} {v2 : Bool}
    {inst : PPG_Raw_Data}
    (h0 : 0 < min (if v2 then 52 else 34) inst.arr_size)
    (h : data.length < off + 4 * min (if v2 then 52 else 34) inst.arr_size) :
    PPG_Raw_Data.fromBytesPpgData data off v2 inst = inst := by
  simp only [PPG_Raw_Data.fromBytesPpgData]
  rw [if_pos h0, takeBytes?_none h]

/-- The decoded `arr_size` (bytes 2-3 of the common block, little-endian)
used to size the sample-array unpack. -/
def accArrSize (data : List Nat) (v2 : Bool) : Nat :=
  leU16 (((data.drop (if v2 then 11 else 0)).take 12).getD 2 0)
    (((data.drop (if v2 then 11 else 0)).take 12).getD 3 0)

def accXyzNum (data : List Nat) (v2 : Bool) : Nat :=
  min (if v2 then 105 else 69) (accArrSize data v2 * 3)

def ppgNum (data : List Nat) (v2 : Bool) : Nat :=
  min (if v2 then 52 else 34) (accArrSize data v2)

/-- **C7** — `ACC_Raw_Data.from_bytes` and `PPG_Raw_Data.from_bytes` are
total (they never raise): at whichever fixed-layout unpack the payload is
too short, decoding stops and the fields not yet decoded keep their
type-appropriate defaults — the caller-supplied `timestamp` /
`unix_timestamp` are always set; a truncated v2 header leaves the whole
instance at its defaults; a truncated common block leaves the common fields
and the sample array at their defaults; a truncated sample array leaves
`acc_data` / `ppg_data` at `[]`; and when the v2 header is present it is
decoded (witnessed by `serial_number`). -/
theorem C7_from_bytes_truncation_defaults (data : List Nat) (u : Int)
    (t : String) (v2 : Bool) :
    ((ACC_Raw_Data.from_bytes data v2 u t).timestamp = t
        ∧ (ACC_Raw_Data.from_bytes data v2 u t).unix_timestamp = u
        ∧ (PPG_Raw_Data.from_bytes data v2 u t).timestamp = t
        ∧ (PPG_Raw_Data.from_bytes data v2 u t).unix_timestamp = u)
      ∧ (v2 = true → data.length < 11 →
          ACC_Raw_Data.from_bytes data v2 u t
              = { unix_timestamp := u, timestamp := t }
            ∧ PPG_Raw_Data.from_bytes data v2 u t
              = { unix_timestamp := u, timestamp := t })
      ∧ (data.length < (if v2 then 11 else 0) + 12 →
          (ACC_Raw_Data.from_bytes data v2 u t).acc_type = 0
            ∧ (ACC_Raw_Data.from_bytes data v2 u t).arr_bit = 0
            ∧ (ACC_Raw_Data.from_bytes data v2 u t).arr_size = 0
            ∧ (ACC_Raw_Data.from_bytes data v2 u t).freq = 0
            ∧ (ACC_Raw_Data.from_bytes data v2 u t).tolerance = 0
            ∧ (ACC_Raw_Data.from_bytes data v2 u t).data = List.replicate 5 0
            ∧ (ACC_Raw_Data.from_bytes data v2 u t).acc_data = []
            ∧ (PPG_Raw_Data.from_bytes data v2 u t).ppg_data = [])
      ∧ ((if v2 then 11 else 0) + 12 ≤ data.length →
          data.length < (if v2 then 11 else 0) + 12 + 2 * accXyzNum data v2 →
          (ACC_Raw_Data.from_bytes data v2 u t).acc_data = [])
      ∧ ((if v2 then 11 else 0) + 12 ≤ data.length →
          data.length < (if v2 then 11 else 0) + 12 + 4 * ppgNum data v2 →
          (PPG_Raw_Data.from_bytes data v2 u t).ppg_data = [])
      ∧ (v2 = true → 11 ≤ data.length →
          (ACC_Raw_Data.from_bytes data v2 u t).serial_number
              = some (data.getD 0 0)
            ∧ (PPG_Raw_Data.from_bytes data v2 u t).serial_number
              = some (data.getD 0 0)) := by
  cases v2 with
  | false =>
    rcases ACC_Raw_Data.fromBytesCommonAcc_eq data 0 false
        { unix_timestamp := u, timestamp := t } with
      ⟨a1, b1, c1, d1, e1, f1, g1, hacc⟩
    rcases PPG_Raw_Data.fromBytesCommonPpg_eq data 0 false
        { unix_timestamp := u, timestamp := t } with
      ⟨a2, b2, c2, d2, e2, f2, g2, hppg⟩
    refine ⟨⟨?_, ?_, ?_, ?_⟩, ?_, ?_, ?_, ?_, ?_⟩
    · rw [ACC_from_bytes_false, hacc]
    · rw [ACC_from_bytes_false, hacc]
    · rw [PPG_from_bytes_false, hppg]
    · rw [PPG_from_bytes_false, hppg]
    · intro hv; simp at hv
    · intro h
      norm_num at h
      rw [ACC_from_bytes_false, PPG_from_bytes_false,
        ACC_common_short (by omega), PPG_common_short (by omega)]
      exact ⟨rfl, rfl, rfl, rfl, rfl, rfl, rfl, rfl⟩
    · intro h1 h2
      norm_num at h1 h2
      rw [ACC_from_bytes_false, ACC_common_long (by omega),
        ACC_accdata_none (by exact (by omega : 0 < accXyzNum data false))
          (by exact (by omega : data.length < 0 + 12 + 2 * accXyzNum data false))]
    · intro h1 h2
      norm_num at h1 h2
      rw [PPG_from_bytes_false, PPG_common_long (by omega),
        PPG_ppgdata_none (by exact (by omega : 0 < ppgNum data false))
          (by exact (by omega : data.length < 0 + 12 + 4 * ppgNum data false))]
    · intro hv; simp at hv
  | true =>
    rcases Nat.lt_or_ge data.length 11 with hlen | hlen
    · refine ⟨⟨?_, ?_, ?_, ?_⟩, ?_, ?_, ?_, ?_, ?_⟩
      · rw [ACC_from_bytes_true_short u t hlen]
      · rw [ACC_from_bytes_true_short u t hlen]
      · rw [PPG_from_bytes_true_short u t hlen]
      · rw [PPG_from_bytes_true_short u t hlen]
      · intro _ _
        exact ⟨ACC_from_bytes_true_short u t hlen,
          PPG_from_bytes_true_short u t hlen⟩
      · intro h
        rw [ACC_from_bytes_true_short u t hlen,
          PPG_from_bytes_true_short u t hlen]
        exact ⟨rfl, rfl, rfl, rfl, rfl, rfl, rfl, rfl⟩
      · intro h1 h2
        norm_num at h1
        omega
      · intro h1 h2
        norm_num at h1
        omega
      · intro _ h
        omega
    · rcases ACC_Raw_Data.fromBytesCommonAcc_eq data 11 true
          { unix_timestamp := u, timestamp := t,
            serial_number := some ((data.take 11).getD 0 0),
            ms := some (leU16 ((data.take 11).getD 1 0) ((data.take 11).getD 2 0)),
            acc_scale := some ((data.take 11).getD 3 0),
            reserved := some ((data.take 11).drop 4) } with
        ⟨a1, b1, c1, d1, e1, f1, g1, hacc⟩
      rcases PPG_Raw_Data.fromBytesCommonPpg_eq data 11 true
          { unix_timestamp := u, timestamp := t,
            serial_number := some ((data.take 11).getD 0 0),
            ms := some (leU16 ((data.take 11).getD 1 0) ((data.take 11).getD 2 0)),
            reserved := some ((data.take 11).drop 3) } with
        ⟨a2, b2, c2, d2, e2, f2, g2, hppg⟩
      have hget0 : (data.take 11).getD 0 0 = data.getD 0 0 := by
        cases data with
        | nil => simp at hlen
        | cons b bs => rfl
      refine ⟨⟨?_, ?_, ?_, ?_⟩, ?_, ?_, ?_, ?_, ?_⟩
      · rw [ACC_from_bytes_true_long u t hlen, hacc]
      · rw [ACC_from_bytes_true_long u t hlen, hacc]
      · rw [PPG_from_bytes_true_long u t hlen, hppg]
      · rw [PPG_from_bytes_true_long u t hlen, hppg]
      · intro _ h
        omega
      · intro h
        norm_num at h
        rw [ACC_from_bytes_true_long u t hlen,
          PPG_from_bytes_true_long u t hlen,
          ACC_common_short (by omega), PPG_common_short (by omega)]
        exact ⟨rfl, rfl, rfl, rfl, rfl, rfl, rfl, rfl⟩
      · intro h1 h2
        norm_num at h1 h2
        rw [ACC_from_bytes_true_long u t hlen, ACC_common_long (by omega),
          ACC_accdata_none (by exact (by omega : 0 < accXyzNum data true))
            (by exact
              (by omega : data.length < 11 + 12 + 2 * accXyzNum data true))]
      · intro h1 h2
        norm_num at h1 h2
        rw [PPG_from_bytes_true_long u t hlen, PPG_common_long (by omega),
          PPG_ppgdata_none (by exact (by omega : 0 < ppgNum data true))
            (by exact
              (by omega : data.length < 11 + 12 + 4 * ppgNum data true))]
      · intro _ _
        rw [ACC_from_bytes_true_long u t hlen, hacc,
          PPG_from_bytes_true_long u t hlen, hppg]
        constructor
        · show some ((data.take 11).getD 0 0) = some (data.getD 0 0)
          rw [hget0]
        · show some ((data.take 11).getD 0 0) = some (data.getD 0 0)
          rw [hget0]

/-- Witness for C7: the empty payload in v2 mode decodes to the all-default
instances (and the conjuncts' hypotheses are discharged at this input). -/
theorem C7_from_bytes_truncation_defaults_witness :
    ACC_Raw_Data.from_bytes [] true 7 "ts"
        = { unix_timestamp := 7, timestamp := "ts" }
      ∧ PPG_Raw_Data.from_bytes [] true 7 "ts"
        = { unix_timestamp := 7, timestamp := "ts" } :=
  (C7_from_bytes_truncation_defaults [] 7 "ts" true).2.1 rfl (by norm_num)

/-! ## `ParserDispatcher.validate_frame_index` (parser_legacy.py 137-172)

The argument is an arbitrary deserialized Python value, modelled by
`PyVal`.  Note that Python's `isinstance(value, int)` is true for `bool`
(a subclass of `int`, with `True == 1`, `False == 0`); `pyIsInt` /
`pyIntVal` reproduce that. -/

inductive PyVal where
  | none
  | bool (b : Bool)
  | int (n : Int)
  | str (s : String)
  | list (xs : List PyVal)
  | dict (kvs : List (String × PyVal))

/-- `d.get(k)` on a dict. -/
def dictGet (kvs : List (String × PyVal)) (k : String) : Option PyVal :=
  (kvs.find? (fun p => p.1 == k)).map (·.2)

/-- `isinstance(value, int)` — true for `int` and `bool`. -/
def pyIsInt : PyVal → Bool
  | .int _ => true
  | .bool _ => true
  | _ => false

def pyIntVal : PyVal → Int
  | .int n => n
  | .bool b => if b then 1 else 0
  | _ => 0

/-- The `for key in ("cs", "cl", "dl")` body for one key:
`some failure` or `none` (check passed). -/
def fieldCheck (kvs : List (String × PyVal)) (idx : Nat) (key : String) :
    Option (Bool × String) :=
  let value := (dictGet kvs key).getD PyVal.none
  if ¬ pyIsInt value then some (false, s!"frame[{idx}].{key} is not int")
  else if pyIntVal value < 0 then some (false, s!"frame[{idx}].{key} < 0")
  else Option.none

def fieldChecks (kvs : List (String × PyVal)) (idx : Nat) :
    Option (Bool × String) :=
  (fieldCheck kvs idx "cs").orElse fun _ =>
    (fieldCheck kvs idx "cl").orElse fun _ => fieldCheck kvs idx "dl"

/-- The `for idx, frame in enumerate(frames)` loop, carrying `prev_end`;
`ok` returns the final `prev_end` used by the size check after the loop. -/
def validateFramesLoop : List PyVal → Nat → Int → Except (Bool × String) Int
  | [], _, prev_end => Except.ok prev_end
  | f :: rest, idx, prev_end =>
    match f with
    | PyVal.dict kvs =>
      match fieldChecks kvs idx with
      | some failure => Except.error failure
      | Option.none =>
        let cs := pyIntVal ((dictGet kvs "cs").getD PyVal.none)
        let cl := pyIntVal ((dictGet kvs "cl").getD PyVal.none)
        if idx = 0 ∧ cs ≠ 0 then Except.error (false, "first frame cs != 0")
        else if 0 < idx ∧ cs ≠ prev_end then
          Except.error (false, s!"frame[{idx}] cs is not contiguous")
        else validateFramesLoop rest (idx + 1) (cs + cl)
    | _ => Except.error (false, s!"frame[{idx}] is not dict")

def validate_frame_index (frame_index : PyVal) (compressed_size : Option Int) :
    Bool × String :=
  match frame_index with
  | PyVal.none => (false, "frame_index is None")
  | PyVal.dict kvs =>
    match (dictGet kvs "frames").getD PyVal.none with
    | PyVal.list frames =>
      if frames.length = 0 then (false, "frames is empty or invalid")
      else
        match validateFramesLoop frames 0 0 with
        | Except.error e => e
        | Except.ok prev_end =>
          -- `isinstance(compressed_size, int) and compressed_size > 0
          --  and prev_end > compressed_size`
          match compressed_size with
          | some csz =>
            if 0 < csz ∧ csz < prev_end then
              (false, "frame compressed range exceeds file size")
            else (true, "ok")
          | Option.none => (true, "ok")
    | _ => (false, "frames is empty or invalid")
  | _ => (false, "frame_index is not dict")

/-! Claim-side invalidity condition (C4). -/

/-- The frame is a dict whose `cs`/`cl`/`dl` are present, `isinstance`-int
and non-negative. -/
def frameFieldsOk (f : PyVal) : Bool :=
  match f with
  | PyVal.dict kvs =>
    ["cs", "cl", "dl"].all fun k =>
      let v := (dictGet kvs k).getD PyVal.none
      pyIsInt v && decide (0 ≤ pyIntVal v)
  | _ => false

def csOf (f : PyVal) : Int :=
  match f with
  | PyVal.dict kvs => pyIntVal ((dictGet kvs "cs").getD PyVal.none)
  | _ => 0

def clOf (f : PyVal) : Int :=
  match f with
  | PyVal.dict kvs => pyIntVal ((dictGet kvs "cl").getD PyVal.none)
  | _ => 0

/-- The cumulative compressed end after processing all frames. -/
def endOf (prev : Int) : List PyVal → Int
  | [] => prev
  | f :: rest => endOf (csOf f + clOf f) rest

/-- The structural disjuncts shared by both readings of the claim: some
frame malformed, the first frame's `cs` nonzero, or two adjacent
(well-formed) frames non-contiguous. -/
def claimFramesBad (frames : List PyVal) : Bool :=
  frames.isEmpty
    || frames.any (fun f => ! frameFieldsOk f)
    || (match frames.head? with
        | some f => frameFieldsOk f && decide (csOf f ≠ 0)
        | Option.none => false)
    || (frames.zip frames.tail).any (fun ab =>
        frameFieldsOk ab.1 && frameFieldsOk ab.2
          && decide (csOf ab.2 ≠ csOf ab.1 + clOf ab.1))

/-- The claim's invalidity condition, amended: the size clause only applies
to a positive supplied size (and Python booleans count as integers with
values 1/0 throughout). -/
def claimInvalid (frame_index : PyVal) (csz : Option Int) : Bool :=
  match frame_index with
  | PyVal.dict kvs =>
    match (dictGet kvs "frames").getD PyVal.none with
    | PyVal.list frames =>
      claimFramesBad frames
        || (frames.all frameFieldsOk
            && match csz with
               | some c => decide (0 < c) && decide (c < endOf 0 frames)
               | Option.none => false)
    | _ => true
  | _ => true

/-- The claim's invalidity condition exactly as stated: the size clause
fires whenever the cumulative compressed end exceeds the supplied physical
file size, with no positivity requirement on the size. -/
def claimInvalidOrig (frame_index : PyVal) (csz : Option Int) : Bool :=
  match frame_index with
  | PyVal.dict kvs =>
    match (dictGet kvs "frames").getD PyVal.none with
    | PyVal.list frames =>
      claimFramesBad frames
        || (frames.all frameFieldsOk
            && match csz with
               | some c => decide (c < endOf 0 frames)
               | Option.none => false)
    | _ => true
  | _ => true

/-- The per-frame chain condition checked by the loop, with running
`prev_end`. -/
def chainOkB (prev : Int) : List PyVal → Bool
  | [] => true
  | f :: rest =>
    frameFieldsOk f && decide (csOf f = prev) && chainOkB (csOf f + clOf f) rest

lemma fieldCheck_none_iff (kvs : List (String × PyVal)) (idx : Nat)
    (key : String) :
    fieldCheck kvs idx key = Option.none
      ↔ (pyIsInt ((dictGet kvs key).getD PyVal.none)
          && decide (0 ≤ pyIntVal ((dictGet kvs key).getD PyVal.none))) = true := by
  by_cases h1 : pyIsInt ((dictGet kvs key).getD PyVal.none) = true
  · by_cases h2 : pyIntVal ((dictGet kvs key).getD PyVal.none) < 0
    · simp [fieldCheck, h1, h2, not_le.mpr h2]
    · simp [fieldCheck, h1, h2, not_lt.mp h2]
  · simp [fieldCheck, h1]

lemma fieldChecks_none_iff (kvs : List (String × PyVal)) (idx : Nat) :
    fieldChecks kvs idx = Option.none
      ↔ frameFieldsOk (PyVal.dict kvs) = true := by
  have h1 := fieldCheck_none_iff kvs idx "cs"
  have h2 := fieldCheck_none_iff kvs idx "cl"
  have h3 := fieldCheck_none_iff kvs idx "dl"
  simp only [frameFieldsOk, List.all_cons, List.all_nil, Bool.and_true,
    Bool.and_eq_true]
  rw [fieldChecks]
  rcases hc1 : fieldCheck kvs idx "cs" with _ | v1 <;>
    rcases hc2 : fieldCheck kvs idx "cl" with _ | v2 <;>
      rcases hc3 : fieldCheck kvs idx "dl" with _ | v3 <;>
        simp_all [Option.orElse]

lemma fieldChecks_some_shape (kvs : List (String × PyVal)) (idx : Nat)
    (e : Bool × String) (h : fieldChecks kvs idx = some e) :
    ∃ msg, e = (false, msg) := by
  have hshape : ∀ key e', fieldCheck kvs idx key = some e' →
      ∃ msg, e' = (false, msg) := by
    intro key e' h'
    simp only [fieldCheck] at h'
    split at h'
    · exact ⟨_, (Option.some_inj.mp h').symm⟩
    · split at h'
      · exact ⟨_, (Option.some_inj.mp h').symm⟩
      · cases h'
  rw [fieldChecks] at h
  rcases hc1 : fieldCheck kvs idx "cs" with _ | v1 <;> rw [hc1] at h
  · rcases hc2 : fieldCheck kvs idx "cl" with _ | v2 <;> rw [hc2] at h
    · rcases hc3 : fieldCheck kvs idx "dl" with _ | v3 <;> rw [hc3] at h
      · cases h
      · simp only [Option.orElse] at h
        exact hshape "dl" e (by rw [hc3, ← Option.some_inj.mp h])
    · simp only [Option.orElse] at h
      exact hshape "cl" e (by rw [hc2, ← Option.some_inj.mp h])
  · simp only [Option.orElse] at h
    exact hshape "cs" e (by rw [hc1, ← Option.some_inj.mp h])

lemma chainOkB_cons_iff (f : PyVal) (rest : List PyVal) :
    ∀ prev, chainOkB prev (f :: rest) = true ↔
      ((∀ g ∈ f :: rest, frameFieldsOk g = true)
        ∧ csOf f = prev
        ∧ ∀ ab ∈ (f :: rest).zip rest, csOf ab.2 = csOf ab.1 + clOf ab.1) := by
  induction rest generalizing f with
  | nil =>
    intro prev
    simp only [chainOkB, Bool.and_true, Bool.and_eq_true, decide_eq_true_eq,
      List.forall_mem_cons, List.forall_mem_nil, List.zip_nil_right,
      List.forall_mem_nil, and_true]
    tauto
  | cons g rr ih =>
    intro prev
    rw [show chainOkB prev (f :: g :: rr)
        = (frameFieldsOk f && decide (csOf f = prev)
            && chainOkB (csOf f + clOf f) (g :: rr)) from rfl]
    rw [Bool.and_eq_true, Bool.and_eq_true, decide_eq_true_eq,
      ih g (csOf f + clOf f)]
    simp [List.forall_mem_cons, List.zip_cons_cons]
    tauto

lemma frameFieldsOk_false_of_not_dict (f : PyVal)
    (h : ∀ kvs, f ≠ PyVal.dict kvs) : frameFieldsOk f = false := by
  cases f <;> first | rfl | exact absurd rfl (h _)

lemma validateFramesLoop_spec (frames : List PyVal) :
    ∀ (idx : Nat) (prev : Int), (idx = 0 → prev = 0) →
      (chainOkB prev frames = true →
          validateFramesLoop frames idx prev = Except.ok (endOf prev frames))
        ∧ (chainOkB prev frames = false →
            ∃ msg, validateFramesLoop frames idx prev
              = Except.error (false, msg)) := by
  induction frames with
  | nil =>
    intro idx prev h0
    refine ⟨fun _ => rfl, fun hc => ?_⟩
    simp [chainOkB] at hc
  | cons f rest ih =>
    intro idx prev h0
    cases f with
    | dict kvs =>
      rcases hfc : fieldChecks kvs idx with _ | failure
      · -- all three field checks passed
        have hok : frameFieldsOk (PyVal.dict kvs) = true :=
          (fieldChecks_none_iff kvs idx).mp hfc
        by_cases hcs : csOf (PyVal.dict kvs) = prev
        · -- contiguity holds at this frame: the loop recurses
          have hred : validateFramesLoop (PyVal.dict kvs :: rest) idx prev
              = validateFramesLoop rest (idx + 1)
                  (csOf (PyVal.dict kvs) + clOf (PyVal.dict kvs)) := by
            simp only [validateFramesLoop]
            rw [hfc]
            rcases Nat.eq_zero_or_pos idx with hidx | hidx
            · have hprev : prev = 0 := h0 hidx
              rw [if_neg (by subst hidx hprev; simp [csOf] at hcs ⊢; omega),
                if_neg (by subst hidx; simp)]
              rfl
            · rw [if_neg (by omega), if_neg (by
                  intro hcon
                  exact hcon.2 (by simpa [csOf] using hcs))]
              rfl
          have hchain : chainOkB prev (PyVal.dict kvs :: rest)
              = chainOkB (csOf (PyVal.dict kvs) + clOf (PyVal.dict kvs)) rest := by
            simp [chainOkB, hok, hcs]
          have hend : endOf prev (PyVal.dict kvs :: rest)
              = endOf (csOf (PyVal.dict kvs) + clOf (PyVal.dict kvs)) rest := rfl
          rw [hred, hchain, hend]
          exact ih (idx + 1) _ (by omega)
        · -- contiguity broken: one of the two cs guards fires
          have hchain : chainOkB prev (PyVal.dict kvs :: rest) = false := by
            simp [chainOkB, hcs]
          refine ⟨fun hc => absurd hc (by rw [hchain]; simp), fun _ => ?_⟩
          rcases Nat.eq_zero_or_pos idx with hidx | hidx
          · have hprev : prev = 0 := h0 hidx
            refine ⟨"first frame cs != 0", ?_⟩
            simp only [validateFramesLoop]
            rw [hfc]
            rw [if_pos ⟨hidx, by subst hidx hprev; simpa [csOf] using hcs⟩]
          · refine ⟨s!"frame[{idx}] cs is not contiguous", ?_⟩
            simp only [validateFramesLoop]
            rw [hfc]
            rw [if_neg (by omega), if_pos ⟨hidx, by simpa [csOf] using hcs⟩]
      · -- a field check failed
        have hok : frameFieldsOk (PyVal.dict kvs) = false := by
          rcases hx : frameFieldsOk (PyVal.dict kvs) with _ | _
          · rfl
          · exact absurd ((fieldChecks_none_iff kvs idx).mpr hx)
              (by rw [hfc]; simp)
        have hchain : chainOkB prev (PyVal.dict kvs :: rest) = false := by
          simp [chainOkB, hok]
        rcases fieldChecks_some_shape kvs idx failure hfc with ⟨msg, rfl⟩
        refine ⟨fun hc => absurd hc (by rw [hchain]; simp), fun _ => ?_⟩
        refine ⟨msg, ?_⟩
        simp only [validateFramesLoop]
        rw [hfc]
    | none =>
      refine ⟨fun hc => ?_, fun _ => ⟨_, rfl⟩⟩
      simp [chainOkB, frameFieldsOk] at hc
    | bool b =>
      refine ⟨fun hc => ?_, fun _ => ⟨_, rfl⟩⟩
      simp [chainOkB, frameFieldsOk] at hc
    | int n =>
      refine ⟨fun hc => ?_, fun _ => ⟨_, rfl⟩⟩
      simp [chainOkB, frameFieldsOk] at hc
    | str s =>
      refine ⟨fun hc => ?_, fun _ => ⟨_, rfl⟩⟩
      simp [chainOkB, frameFieldsOk] at hc
    | list xs =>
      refine ⟨fun hc => ?_, fun _ => ⟨_, rfl⟩⟩
      simp [chainOkB, frameFieldsOk] at hc

lemma claimFramesBad_true_of_any {f : PyVal} {rest : List PyVal} {g : PyVal}
    (hg : g ∈ f :: rest) (hgf : frameFieldsOk g = false) :
    claimFramesBad (f :: rest) = true := by
  have hany : (f :: rest).any (fun x => ! frameFieldsOk x) = true :=
    List.any_eq_true.mpr ⟨g, hg, by simp [hgf]⟩
  simp [claimFramesBad, hany]

lemma claimFramesBad_true_of_head {f : PyVal} {rest : List PyVal}
    (hok : frameFieldsOk f = true) (hcs : csOf f ≠ 0) :
    claimFramesBad (f :: rest) = true := by
  simp [claimFramesBad, hok, hcs]

lemma claimFramesBad_true_of_pair {f : PyVal} {rest : List PyVal}
    {ab : PyVal × PyVal} (hab : ab ∈ (f :: rest).zip rest)
    (h1 : frameFieldsOk ab.1 = true) (h2 : frameFieldsOk ab.2 = true)
    (hne : csOf ab.2 ≠ csOf ab.1 + clOf ab.1) :
    claimFramesBad (f :: rest) = true := by
  have hany : ((f :: rest).zip rest).any (fun ab =>
      frameFieldsOk ab.1 && frameFieldsOk ab.2
        && decide (csOf ab.2 ≠ csOf ab.1 + clOf ab.1)) = true :=
    List.any_eq_true.mpr ⟨ab, hab, by simp [h1, h2, hne]⟩
  obtain ⟨a, b⟩ := ab
  simp only [claimFramesBad, List.tail_cons, Bool.or_eq_true]
  exact Or.inr (List.any_eq_true.mpr ⟨(a, b), hab, by simp [h1, h2, hne]⟩)

lemma claimFramesBad_cons_iff (f : PyVal) (rest : List PyVal) :
    claimFramesBad (f :: rest) = true ↔ chainOkB 0 (f :: rest) = false := by
  constructor
  · intro hbad
    rcases hch : chainOkB 0 (f :: rest) with _ | _
    · rfl
    exfalso
    obtain ⟨hall, hcs, hpairs⟩ := (chainOkB_cons_iff f rest 0).mp hch
    simp only [claimFramesBad, List.isEmpty_cons, List.head?_cons,
      Bool.or_eq_true, List.any_eq_true, Bool.and_eq_true, decide_eq_true_eq,
      Bool.not_eq_true'] at hbad
    rcases hbad with ((h | h) | h) | h
    · cases h
    · obtain ⟨g, hg, hgf⟩ := h
      rw [hall g hg] at hgf
      cases hgf
    · exact h.2 hcs
    · obtain ⟨ab, hab, _, hne⟩ := h
      exact hne (hpairs ab hab)
  · intro hch
    have hnot : ¬ ((∀ g ∈ f :: rest, frameFieldsOk g = true) ∧ csOf f = 0
        ∧ ∀ ab ∈ (f :: rest).zip rest, csOf ab.2 = csOf ab.1 + clOf ab.1) := by
      intro hc
      rw [(chainOkB_cons_iff f rest 0).mpr hc] at hch
      cases hch
    by_cases hall : ∀ g ∈ f :: rest, frameFieldsOk g = true
    · by_cases hcs : csOf f = 0
      · have hp : ¬ ∀ ab ∈ (f :: rest).zip rest,
            csOf ab.2 = csOf ab.1 + clOf ab.1 := fun hp => hnot ⟨hall, hcs, hp⟩
        push_neg at hp
        obtain ⟨ab, hab, hne⟩ := hp
        obtain ⟨a, b⟩ := ab
        have hm := List.of_mem_zip hab
        exact claimFramesBad_true_of_pair hab (hall _ hm.1)
          (hall _ (List.mem_cons_of_mem _ hm.2)) hne
      · exact claimFramesBad_true_of_head (hall f (List.mem_cons_self f rest)) hcs
    · push_neg at hall
      obtain ⟨g, hg, hgf⟩ := hall
      exact claimFramesBad_true_of_any hg (Bool.eq_false_iff.mpr hgf)

lemma claimFramesBad_false_parts {f : PyVal} {rest : List PyVal}
    (hch : chainOkB 0 (f :: rest) = true) :
    claimFramesBad (f :: rest) = false
      ∧ (f :: rest).all frameFieldsOk = true := by
  constructor
  · rcases hx : claimFramesBad (f :: rest) with _ | _
    · rfl
    · rw [(claimFramesBad_cons_iff f rest).mp hx] at hch
      cases hch
  · obtain ⟨hall, _, _⟩ := (chainOkB_cons_iff f rest 0).mp hch
    exact List.all_eq_true.mpr fun g hg => hall g hg

lemma validate_dict_list (kvs : List (String × PyVal)) (f : PyVal)
    (rest : List PyVal) (csz : Option Int)
    (hfr : (dictGet kvs "frames").getD PyVal.none = PyVal.list (f :: rest)) :
    validate_frame_index (PyVal.dict kvs) csz =
      match validateFramesLoop (f :: rest) 0 0 with
      | Except.error e => e
      | Except.ok prev_end =>
        match csz with
        | some c =>
          if 0 < c ∧ c < prev_end then
            (false, "frame compressed range exceeds file size")
          else (true, "ok")
        | Option.none => (true, "ok") := by
  unfold validate_frame_index
  dsimp only
  rw [hfr]
  simp

lemma claimInvalid_dict_list (kvs : List (String × PyVal))
    (frames : List PyVal) (csz : Option Int)
    (hfr : (dictGet kvs "frames").getD PyVal.none = PyVal.list frames) :
    claimInvalid (PyVal.dict kvs) csz =
      (claimFramesBad frames
        || (frames.all frameFieldsOk
            && match csz with
               | some c => decide (0 < c) && decide (c < endOf 0 frames)
               | Option.none => false)) := by
  unfold claimInvalid
  dsimp only
  rw [hfr]

/-- **C4 (amended)** — `validate_frame_index` returns invalid exactly when:
the frame index is absent or not a dict; its `frames` field is missing, not
a list, or empty; some frame is not a dict or has a missing, non-`int`
(Python booleans counting as integers 1/0) or negative `cs`/`cl`/`dl`; the
first frame's `cs` is nonzero; some adjacent pair of well-formed frames is
non-contiguous; or the supplied physical file size is a **positive** integer
and the cumulative compressed end exceeds it.  (The original claim omitted
the positivity condition on the supplied size.) -/
theorem C4_validate_frame_index_amended (fi : PyVal) (csz : Option Int) :
    (validate_frame_index fi csz).1 = false ↔ claimInvalid fi csz = true := by
  cases fi with
  | dict kvs =>
    rcases hfr : (dictGet kvs "frames").getD PyVal.none with _ | b | n | s | frames | kvs2
    case dict.list =>
      cases frames with
      | nil =>
        have hv : validate_frame_index (PyVal.dict kvs) csz
            = (false, "frames is empty or invalid") := by
          unfold validate_frame_index
          dsimp only
          rw [hfr]
          simp
        have hc : claimInvalid (PyVal.dict kvs) csz = true := by
          rw [claimInvalid_dict_list kvs [] csz hfr]
          simp [claimFramesBad]
        rw [hv, hc]
        simp
      | cons f rest =>
        have hspec := validateFramesLoop_spec (f :: rest) 0 0 (fun _ => rfl)
        rw [validate_dict_list kvs f rest csz hfr,
          claimInvalid_dict_list kvs (f :: rest) csz hfr]
        rcases hchain : chainOkB 0 (f :: rest) with _ | _
        · obtain ⟨msg, hloop⟩ := hspec.2 hchain
          rw [hloop, (claimFramesBad_cons_iff f rest).mpr hchain]
          simp
        · have hloop := hspec.1 hchain
          obtain ⟨hbadf, hallf⟩ := claimFramesBad_false_parts hchain
          rw [hloop, hbadf, hallf]
          cases csz with
          | none => simp
          | some c =>
            by_cases hcond : 0 < c ∧ c < endOf 0 (f :: rest)
            · simp [hcond, hcond.1, hcond.2]
            · rcases not_and_or.mp hcond with h | h
              · simp [hcond, h]
              · by_cases h0 : 0 < c
                · simp [hcond, h, h0]
                · simp [hcond, h0]
    all_goals
      unfold validate_frame_index claimInvalid
    all_goals
      dsimp only
    all_goals
      rw [hfr]
    all_goals
      simp
  | none => simp [validate_frame_index, claimInvalid]
  | bool b => simp [validate_frame_index, claimInvalid]
  | int n => simp [validate_frame_index, claimInvalid]
  | str s => simp [validate_frame_index, claimInvalid]
  | list xs => simp [validate_frame_index, claimInvalid]

/-- The concrete frame index used to refute C4 as stated: one well-formed
frame `{cs: 0, cl: 1, dl: 0}` with supplied physical size `0`. -/
def c4cex : PyVal :=
  PyVal.dict [("frames", PyVal.list
    [PyVal.dict [("cs", PyVal.int 0), ("cl", PyVal.int 1), ("dl", PyVal.int 0)]])]

/-- **C4 counterexample** — on `c4cex` with supplied size `0`, the cumulative
compressed end (1) exceeds the supplied physical file size (0), so the claim
as stated demands `invalid`; the code skips the size check for non-positive
sizes and returns `valid`. -/
theorem C4_counterexample :
    (validate_frame_index c4cex (some 0)).1 = true
      ∧ claimInvalidOrig c4cex (some 0) = true := by
  constructor <;> rfl

/-- Witness for the amended C4 theorem: at `c4cex` with size `0` both sides
of the equivalence are false. -/
theorem C4_validate_frame_index_amended_witness :
    ((validate_frame_index c4cex (some 0)).1 = false
        ↔ claimInvalid c4cex (some 0) = true)
      ∧ claimInvalid c4cex (some 0) = false :=
  ⟨C4_validate_frame_index_amended c4cex (some 0), rfl⟩

/-- **C10** — the progress callback built by `_create_progress_cb` forwards
a value only when it is strictly greater than every value previously
forwarded; the published sequence is strictly increasing (hence
duplicate-free) for any sequence of reported values. -/
theorem C10_progress_strictly_increasing (ps : List Int) :
    (published ps).Pairwise (· < ·) ∧ List.Chain' (· < ·) (published ps) := by
  have h := publishedRun_inv ps 0 [] (by simp) (by simp)
  exact ⟨h.1, h.1.chain'⟩

/-! ## The sensor-channel registry (parser_types.py 215-417)

`SensorChannel` keeps the fields that drive parsing and merging.  The
DataFrame-shaping fields (`df_key`, `parquet_name`, `add_timestamp_ms`,
`rename_columns`, `ppg_channel_num`, `force_channel_num`) are omitted:
`build_dataframes` is a deterministic function of the merged per-channel
record lists, so equality of those lists (what the theorems below state)
entails equality of the produced tables. -/

inductive MergeStrategy where
  | NONE
  | CONSECUTIVE_ACC
  | CONSECUTIVE_PPG
deriving DecidableEq, Repr

structure SensorChannel where
  data_type : String
  list_key : String
  parser_class_name : String
  parser_extra_kwargs : List (String × Int) := []
  needs_rawdata_v2 : Bool := true
  needs_unix_timestamp : Bool := true
  merge_strategy : MergeStrategy := MergeStrategy.NONE
  ring_variant : Bool := false
  watch_variant : Bool := false
deriving DecidableEq, Repr

/-- The hex codes of `DataType` (the 46-entry enum). -/
def DATA_TYPE_CODES : List String :=
  ["00", "14", "15", "16", "17", "18", "19", "1A", "1B", "1C", "1D", "1E",
   "1F", "20", "21", "26", "32", "33", "67", "68", "69", "70", "71", "72",
   "73", "74", "75", "76", "77", "78", "7A", "7B", "7C", "80", "81", "82",
   "90", "91", "92", "93", "94", "95", "96", "97", "98", "99"]

def SENSOR_CHANNELS : List SensorChannel :=
  [{ data_type := "00", list_key := "base_info", parser_class_name := "BaseInfo" },
   { data_type := "71", list_key := "wear_info", parser_class_name := "WearInfo" },
   { data_type := "18", list_key := "acc", parser_class_name := "ACC_Raw_Data",
     merge_strategy := MergeStrategy.CONSECUTIVE_ACC },
   { data_type := "19", list_key := "gyro", parser_class_name := "ACC_Raw_Data",
     merge_strategy := MergeStrategy.CONSECUTIVE_ACC },
   { data_type := "15", list_key := "ppg_green", parser_class_name := "PPG_Raw_Data",
     merge_strategy := MergeStrategy.CONSECUTIVE_PPG },
   { data_type := "16", list_key := "ppg_red", parser_class_name := "PPG_Raw_Data",
     merge_strategy := MergeStrategy.CONSECUTIVE_PPG },
   { data_type := "17", list_key := "ppg_ir", parser_class_name := "PPG_Raw_Data",
     merge_strategy := MergeStrategy.CONSECUTIVE_PPG },
   { data_type := "26", list_key := "ppg_red_ir", parser_class_name := "PPG_Raw_Data",
     merge_strategy := MergeStrategy.CONSECUTIVE_PPG },
   { data_type := "69", list_key := "motion_recognition",
     parser_class_name := "MotionRecognition",
     parser_extra_kwargs := [("offset", 149)], needs_rawdata_v2 := false },
   { data_type := "81", list_key := "tyhx_data", parser_class_name := "TYHX_PPG_Data",
     needs_rawdata_v2 := false },
   { data_type := "82", list_key := "tyhx_agc", parser_class_name := "TYHX_AGC_Data",
     needs_rawdata_v2 := false, watch_variant := true },
   { data_type := "82", list_key := "tyhx_3697", parser_class_name := "TYHX_3697_Data",
     needs_rawdata_v2 := false, ring_variant := true },
   { data_type := "91", list_key := "psp_fifo", parser_class_name := "PSP_PPG_FIFO" }]

def ALL_LIST_KEYS : List String := SENSOR_CHANNELS.map (·.list_key)

/-- The ring/watch variant filter in the dispatch-table construction:
`if ch.ring_variant and not is_ring: continue` /
`if ch.watch_variant and is_ring: continue`. -/
def variantOk (is_ring : Bool) (ch : SensorChannel) : Bool :=
  !(ch.ring_variant && !is_ring) && !(ch.watch_variant && is_ring)

/-- The per-data-type dispatch map: `dispatch[dt] = ch` is assigned in
registry order, so the last admissible channel for a type wins. -/
def dispatch (is_ring : Bool) (dt : String) : Option SensorChannel :=
  (SENSOR_CHANNELS.filter
    (fun ch => ch.data_type == dt && variantOk is_ring ch)).getLast?

/-! ## String helpers for the line grammar

`int(x, 16)` also accepts a sign, an `0x` prefix, underscores and
surrounding whitespace, and `bytes.fromhex` accepts single spaces between
byte pairs; those exotic forms are not modelled (both decode paths share
these functions, so the cross-path claims are unaffected). -/

/-! Text lines are handled as explicit character lists (`String.toList`),
with the Python string primitives the loop uses transcribed directly:
`str.strip()`, `str.startswith`/`endswith`, `str.replace(", ", ",")`,
`str.split(",")` and `str.upper()`. -/

/-- The whitespace set of Python `str.strip()`. -/
def isPySpace (c : Char) : Bool :=
  c == ' ' || c == '\t' || c == '\n' || c == '\x0d' || c == '\x0b' || c == '\x0c'

/-- `line.strip()`. -/
def strip (s : List Char) : List Char :=
  ((s.dropWhile isPySpace).reverse.dropWhile isPySpace).reverse

/-- `s.startswith(p)` (first argument is the pattern). -/
def startsWithL : List Char → List Char → Bool
  | [], _ => true
  | _ :: _, [] => false
  | p :: ps, c :: cs => p == c && startsWithL ps cs

/-- `s.endswith(p)` (first argument is the pattern). -/
def endsWithL (p s : List Char) : Bool :=
  startsWithL p.reverse s.reverse

/-- `line.replace(", ", ",")`: left-to-right, no rescan of replacements. -/
def collapseCommaSpace : List Char → List Char
  | ',' :: ' ' :: rest => ',' :: collapseCommaSpace rest
  | c :: rest => c :: collapseCommaSpace rest
  | [] => []

/-- `line.split(",")` (`"".split(",") == [""]`). -/
def splitComma : List Char → List (List Char)
  | [] => [[]]
  | ',' :: rest => [] :: splitComma rest
  | c :: rest =>
    match splitComma rest with
    | g :: gs => (c :: g) :: gs
    | [] => [[c]]

/-- ASCII `str.upper()` on one character. -/
def upChar (c : Char) : Char :=
  if 'a' ≤ c ∧ c ≤ 'z' then Char.ofNat (c.toNat - 32) else c

def isHexDigitChar (c : Char) : Bool :=
  c.isDigit || ('a' ≤ c && c ≤ 'f') || ('A' ≤ c && c ≤ 'F')

def hexDigitVal (c : Char) : Nat :=
  if c.isDigit then c.toNat - '0'.toNat
  else if 'a' ≤ c && c ≤ 'f' then c.toNat - 'a'.toNat + 10
  else c.toNat - 'A'.toNat + 10

/-- `int(s, 16)` (plain hex digits). -/
def hexNat? (cs : List Char) : Option Nat :=
  if cs.length = 0 ∨ ¬ (cs.all isHexDigitChar) then Option.none
  else some (cs.foldl (fun a c => 16 * a + hexDigitVal c) 0)

def hexPairs : List Char → List Nat
  | c1 :: c2 :: rest => (16 * hexDigitVal c1 + hexDigitVal c2) :: hexPairs rest
  | _ => []

/-- `bytes.fromhex(s)`. -/
def bytesFromHex? (cs : List Char) : Option (List Nat) :=
  if cs.all isHexDigitChar ∧ cs.length % 2 = 0 then
    some (hexPairs cs)
  else Option.none

/-! ## `ParserWorker.parse_lines` (parser_worker.py 79-204)

The loop body splits into a state-independent classification of the line
(`classifyLine`, covering everything from `line.strip()` to the
construction of `parsed_item`) and the state update (`applyAct`).
`json.loads` is abstracted as a parameter `jsonLoads`; annotation objects
are `JObj` association lists, and the stamped label dict
`json_data["unix_timestamp"] = last_unix_timestamp` is represented as the
pair (object, stamp).  The per-channel binary decoders
(`parser_cls.from_bytes(data_bytes, **kwargs)`) are abstracted as a
parameter `decodeRec` receiving the exact argument set the source builds
(`DecodeCtx`); its result exposes the fields the merge logic reads
(`SRecord`). -/

inductive JVal where
  | str (s : String)
  | num (n : Int)
  | bool (b : Bool)
  | null
deriving DecidableEq, Repr

abbrev JObj := List (String × JVal)

structure DecodeCtx where
  parserClass : String
  dataBytes : List Nat
  timestamp : String
  unixTimestamp : Option Int := Option.none
  rawdataV2 : Option Bool := Option.none
  labelHr : Option Int := Option.none
  extra : List (String × Int) := []
deriving DecidableEq, Repr

structure ChannelAction where
  key : String
  strategy : MergeStrategy
  item : SRecord
deriving DecidableEq, Repr

inductive LineAction where
  | skip
  | sensor (data_type : String) (unix_timestamp : Int) (chact : Option ChannelAction)
  | label (obj : JObj)
deriving DecidableEq, Repr

/-- The record-construction part of the loop body: `DataType.from_hex` /
dispatch lookup, the `kwargs` construction, and `parser_cls.from_bytes`
(`decodeRec`).  `none` when the type is unregistered or not dispatched. -/
def chactOf (decodeRec : DecodeCtx → SRecord) (is_ring : Bool)
    (data_type : String) (unix_timestamp : Int) (rawdata_v2 : Bool)
    (parsed_timestamp : String) (label_hr : Int) (data_bytes : List Nat) :
    Option ChannelAction :=
  if DATA_TYPE_CODES.contains data_type then
    match dispatch is_ring data_type with
    | some channel =>
      some { key := channel.list_key,
             strategy := channel.merge_strategy,
             item := decodeRec {
               parserClass := channel.parser_class_name,
               dataBytes := data_bytes,
               timestamp := parsed_timestamp,
               unixTimestamp :=
                 if channel.needs_unix_timestamp then some unix_timestamp
                 else Option.none,
               rawdataV2 :=
                 if channel.needs_rawdata_v2 then some rawdata_v2
                 else Option.none,
               labelHr :=
                 if channel.data_type == "00" then some label_hr
                 else Option.none,
               extra := channel.parser_extra_kwargs } }
    | Option.none => Option.none
  else Option.none

def classifyLine (jsonLoads : String → Option JObj)
    (decodeRec : DecodeCtx → SRecord) (is_ring : Bool) (rawLine : String) :
    LineAction :=
  let line := strip rawLine.toList
  if line.isEmpty then LineAction.skip
  else if startsWithL "202".toList line then
    let data := splitComma (collapseCommaSpace line)
    if data.length < 11 ∨ data.getD 3 [] ≠ "52".toList then LineAction.skip
    else
      match hexNat? ((data.drop 6).take 4).flatten,
            hexNat? (data.getD 2 []),
            bytesFromHex? (data.drop 10).flatten with
      | some unix_ts, some label_hr, some data_bytes =>
        let unix_timestamp : Int := unix_ts
        let rawdata_v2 := data.length = 243
        let parsed_timestamp := String.mk (data.getD 0 [])
        let data_type := String.mk ((data.getD 4 []).map upChar)
        LineAction.sensor data_type unix_timestamp
          (chactOf decodeRec is_ring data_type unix_timestamp rawdata_v2
            parsed_timestamp (label_hr : Int) data_bytes)
      | _, _, _ => LineAction.skip
  else if startsWithL ['\x7b'] line && endsWithL ['\x7d'] line then
    match jsonLoads (String.mk line) with
    | some json_data =>
      if (json_data.any (fun p => p.1 == "label"))
          && (json_data.any (fun p => p.1 == "timestamp")) then
        LineAction.label json_data
      else LineAction.skip
    | Option.none => LineAction.skip
  else LineAction.skip

structure PLState where
  collectors : List (String × List SRecord)
  labels : List (JObj × Int)
  data_types : List (String × Nat)
  last_unix_timestamp : Int
  pending : List (String × SRecord)
deriving DecidableEq, Repr

/-- The merge-or-collect step for one decoded record. -/
def applyChannelAct (merge_consecutive : Bool) (s : PLState)
    (ca : ChannelAction) : PLState :=
  if ca.strategy = MergeStrategy.NONE then
    { s with collectors := alAppendRec s.collectors ca.key ca.item }
  else
    match alGet s.pending ca.key with
    | some prev =>
      if merge_consecutive ∧ prev.serial_number = ca.item.serial_number then
        { s with pending := alSet s.pending ca.key (combineRecords prev ca.item) }
      else if merge_consecutive then
        { s with collectors := alAppendRec s.collectors ca.key prev,
                 pending := alSet s.pending ca.key ca.item }
      else
        { s with collectors := alAppendRec s.collectors ca.key ca.item }
    | Option.none =>
      if merge_consecutive then
        { s with pending := alSet s.pending ca.key ca.item }
      else
        { s with collectors := alAppendRec s.collectors ca.key ca.item }

def applyAct (merge_consecutive : Bool) (s : PLState) (a : LineAction) :
    PLState :=
  match a with
  | LineAction.skip => s
  | LineAction.label obj =>
    { s with labels := s.labels ++ [(obj, s.last_unix_timestamp)] }
  | LineAction.sensor dt uts chact =>
    let s := { s with last_unix_timestamp := uts,
                      data_types := alBump s.data_types dt }
    match chact with
    | Option.none => s
    | some ca => applyChannelAct merge_consecutive s ca

def plStep (jsonLoads : String → Option JObj) (decodeRec : DecodeCtx → SRecord)
    (is_ring merge_consecutive : Bool) (s : PLState) (line : String) : PLState :=
  applyAct merge_consecutive s (classifyLine jsonLoads decodeRec is_ring line)

def initPLState : PLState :=
  { collectors := SENSOR_CHANNELS.map (fun ch => (ch.list_key, [])),
    labels := [], data_types := [], last_unix_timestamp := 0, pending := [] }

/-- The end-of-loop `if merge_consecutive: for key, item in pending.items():
collectors[key].append(item)`. -/
def flushPending (s : PLState) : PLState :=
  { s with collectors :=
      s.pending.foldl (fun c kr => alAppendRec c kr.1 kr.2) s.collectors }

def parse_lines (jsonLoads : String → Option JObj)
    (decodeRec : DecodeCtx → SRecord) (lines : List String)
    (is_ring : Bool) (merge_consecutive : Bool) : PLState :=
  let s := lines.foldl (plStep jsonLoads decodeRec is_ring merge_consecutive)
    initPLState
  if merge_consecutive then flushPending s else s

/-! ## `merge_partial_results` / `finalize_parallel_results`
(parser_worker.py 240-279) -/

/-- The inner loop `for key in ALL_LIST_KEYS: merged[key].extend(item.get(key, []))`
of `merge_partial_results`, over an arbitrary key list. -/
def extendKeys (pc : List (String × List SRecord)) (keys : List String)
    (c : List (String × List SRecord)) : List (String × List SRecord) :=
  keys.foldl
    (fun c key => alSet c key ((alGet c key).getD [] ++ (alGet pc key).getD []))
    c

/-- `for dt, count in item.get("data_types", {}).items(): merged[...] += count`. -/
def addCounts (entries : List (String × Nat)) (d : List (String × Nat)) :
    List (String × Nat) :=
  entries.foldl (fun d kv => alSet d kv.1 ((alGet d kv.1).getD 0 + kv.2)) d

/-- One iteration of `for item in partial_results` in `merge_partial_results`. -/
def mergeAccStep (acc part : PLState) : PLState :=
  { acc with
    collectors := extendKeys part.collectors ALL_LIST_KEYS acc.collectors,
    labels := acc.labels ++ part.labels,
    data_types := addCounts part.data_types acc.data_types }

/-- The final pass `for ch in SENSOR_CHANNELS: ... merged[ch.list_key] =
merge_consecutive_items(merged[ch.list_key], ...)`, over an arbitrary
channel list. -/
def mergePass (chs : List SensorChannel) (c : List (String × List SRecord)) :
    List (String × List SRecord) :=
  chs.foldl
    (fun c ch =>
      if ch.merge_strategy = MergeStrategy.NONE then c
      else alSet c ch.list_key
        (merge_consecutive_items ((alGet c ch.list_key).getD [])))
    c

/-- `ParserWorker.merge_partial_results`: concatenate the per-batch results
in ascending batch order, then run the consecutive merge for every
registered merge channel.  (Source name: `merge_partial_results`; the
accumulator starts from `empty_partial_result()`, whose content equals
`initPLState`.) -/
def merge_batch_results (parts : List PLState) : PLState :=
  let merged := parts.foldl mergeAccStep initPLState
  { merged with collectors := mergePass SENSOR_CHANNELS merged.collectors }

/-- `decompress_and_parse_single`'s decode core: one continuous stream of
lines, parsed with `merge_consecutive=True` (then `build_dataframes`). -/
def single_pipeline (jsonLoads : String → Option JObj)
    (decodeRec : DecodeCtx → SRecord) (lines : List String) (is_ring : Bool) :
    PLState :=
  parse_lines jsonLoads decodeRec lines is_ring true

/-- `decompress_and_parse_parallel`'s decode core at line granularity: each
batch's line slice is parsed by a worker with `merge_consecutive=False`, the
results are reassembled in ascending `batch_id` order and merged by
`finalize_parallel_results` (then `build_dataframes`). -/
def parallel_pipeline (jsonLoads : String → Option JObj)
    (decodeRec : DecodeCtx → SRecord) (batches : List (List String))
    (is_ring : Bool) : PLState :=
  merge_batch_results
    (batches.map (fun ls => parse_lines jsonLoads decodeRec ls is_ring false))

/-- The channel view of a result (`result[list_key]`). -/
def chanOf (s : PLState) (key : String) : List SRecord :=
  (alGet s.collectors key).getD []

/-- The histogram view of a result (`result["data_types"].get(dt, 0)` —
Python dict equality is content equality, so pointwise `dtCount` equality
is `data_types` equality). -/
def dtCount (s : PLState) (dt : String) : Nat :=
  (alGet s.data_types dt).getD 0

/-! ## Act-level semantics

`classifyLine` is state-independent, so a line list determines an action
list, and the fold of `applyAct` over it captures `parse_lines` exactly.
The functions below read off each state component from the action list. -/

/-- The labels output: an annotation object is stamped with the running
`last_unix_timestamp` (initially 0), which every structurally valid sensor
record line updates. -/
def labelsFromActs : List LineAction → Int → List (JObj × Int)
  | [], _ => []
  | a :: as, t =>
    match a with
    | LineAction.label obj => (obj, t) :: labelsFromActs as t
    | LineAction.sensor _ uts _ => labelsFromActs as uts
    | LineAction.skip => labelsFromActs as t

def lastTsActs : List LineAction → Int → Int
  | [], t => t
  | a :: as, t =>
    match a with
    | LineAction.sensor _ uts _ => lastTsActs as uts
    | _ => lastTsActs as t

/-- The records collected for one channel key, in stream order (the
pre-merge view). -/
def emitsFor (key : String) : List LineAction → List SRecord
  | [] => []
  | a :: as =>
    match a with
    | LineAction.sensor _ _ (some ca) =>
      (if ca.key = key then [ca.item] else []) ++ emitsFor key as
    | _ => emitsFor key as

def dtCountActs (dt : String) : List LineAction → Nat
  | [] => 0
  | a :: as =>
    (match a with
     | LineAction.sensor d _ _ => if d = dt then 1 else 0
     | _ => 0) + dtCountActs dt as

lemma alGet_alSet {α : Type} (l : List (String × α)) (k k' : String) (v : α) :
    alGet (alSet l k v) k' = if k' = k then some v else alGet l k' := by
  induction l with
  | nil =>
    by_cases h : k' = k
    · subst h; simp [alSet, alGet]
    · have h' : ¬ k = k' := fun e => h e.symm
      simp [alSet, alGet, h, h']
  | cons p rest ih =>
    by_cases hp : p.1 = k
    · by_cases h : k' = k
      · subst h; simp [alSet, alGet, hp]
      · have h' : ¬ k = k' := fun e => h e.symm
        have hpk : ¬ p.1 = k' := by rw [hp]; exact h'
        simp [alSet, alGet, hp, h, hpk, h']
    · by_cases hpk' : p.1 = k'
      · have hne : ¬ k' = k := fun e => hp (by rw [hpk', e])
        simp [alSet, alGet, hp, hpk', hne]
      · simp [alSet, alGet, hp, hpk', ih]

lemma alGet_alAppendRec {α : Type} (l : List (String × List α)) (k k' : String)
    (r : α) :
    (alGet (alAppendRec l k r) k').getD [] =
      if k' = k then (alGet l k).getD [] ++ [r] else (alGet l k').getD [] := by
  unfold alAppendRec
  rw [alGet_alSet]
  split <;> simp

lemma alGet_alBump (l : List (String × Nat)) (k k' : String) :
    (alGet (alBump l k) k').getD 0 =
      if k' = k then (alGet l k).getD 0 + 1 else (alGet l k').getD 0 := by
  unfold alBump
  rw [alGet_alSet]
  split <;> simp

lemma applyChannelAct_parts (m : Bool) (s : PLState) (ca : ChannelAction) :
    (applyChannelAct m s ca).labels = s.labels
      ∧ (applyChannelAct m s ca).last_unix_timestamp = s.last_unix_timestamp
      ∧ (applyChannelAct m s ca).data_types = s.data_types := by
  unfold applyChannelAct
  repeat' split
  all_goals exact ⟨rfl, rfl, rfl⟩

lemma applyChannelAct_false (s : PLState) (ca : ChannelAction) :
    applyChannelAct false s ca
      = { s with collectors := alAppendRec s.collectors ca.key ca.item } := by
  unfold applyChannelAct
  split
  · rfl
  · cases halg : alGet s.pending ca.key with
    | some prev =>
      dsimp only
      rw [if_neg (by simp), if_neg (by simp)]
    | none =>
      dsimp only
      rw [if_neg (by simp)]

lemma foldl_applyAct_labels_ts (acts : List LineAction) :
    ∀ (m : Bool) (s : PLState),
      (acts.foldl (applyAct m) s).labels
          = s.labels ++ labelsFromActs acts s.last_unix_timestamp
        ∧ (acts.foldl (applyAct m) s).last_unix_timestamp
          = lastTsActs acts s.last_unix_timestamp := by
  induction acts with
  | nil => intro m s; simp [labelsFromActs, lastTsActs]
  | cons a as ih =>
    intro m s
    cases a with
    | skip => simpa [applyAct, labelsFromActs, lastTsActs] using ih m s
    | label obj =>
      have h := ih m { s with labels := s.labels ++ [(obj, s.last_unix_timestamp)] }
      simpa [applyAct, labelsFromActs, lastTsActs, List.append_assoc] using h
    | sensor dt uts chact =>
      cases chact with
      | none =>
        have h := ih m
          { s with last_unix_timestamp := uts, data_types := alBump s.data_types dt }
        simpa [applyAct, labelsFromActs, lastTsActs] using h
      | some ca =>
        have hca := applyChannelAct_parts m
          { s with last_unix_timestamp := uts, data_types := alBump s.data_types dt } ca
        have h := ih m (applyChannelAct m
          { s with last_unix_timestamp := uts, data_types := alBump s.data_types dt } ca)
        simp only [applyAct, List.foldl_cons, labelsFromActs, lastTsActs]
        rw [h.1, h.2, hca.1, hca.2.1]
        exact ⟨rfl, rfl⟩

/-- **C9** — for every line sequence handed to `parse_lines` (in particular
each per-batch slice in parallel mode, each starting from timestamp `0`),
the labels output consists of exactly the annotation lines (JSON objects
containing both a `label` and a `timestamp` key), in order, each stamped
with a `unix_timestamp` equal to the unix timestamp of the most recently
seen structurally-valid sensor record line earlier in the same sequence
(`0` when none precedes it) — this is what `labelsFromActs · 0` computes
over the classified lines. -/
theorem C9_annotation_stamping (jsonLoads : String → Option JObj)
    (decodeRec : DecodeCtx → SRecord) (lines : List String)
    (is_ring merge_consecutive : Bool) :
    (parse_lines jsonLoads decodeRec lines is_ring merge_consecutive).labels
      = labelsFromActs (lines.map (classifyLine jsonLoads decodeRec is_ring)) 0 := by
  have hmap : lines.foldl (plStep jsonLoads decodeRec is_ring merge_consecutive)
        initPLState
      = (lines.map (classifyLine jsonLoads decodeRec is_ring)).foldl
          (applyAct merge_consecutive) initPLState := by
    rw [List.foldl_map]
    rfl
  have hlab := (foldl_applyAct_labels_ts
    (lines.map (classifyLine jsonLoads decodeRec is_ring)) merge_consecutive
    initPLState).1
  unfold parse_lines
  split
  · show (flushPending _).labels = _
    rw [show ∀ x, (flushPending x).labels = x.labels from fun _ => rfl, hmap, hlab]
    rfl
  · rw [hmap, hlab]
    rfl

/-! ## Consistency of emitted channel actions with the registry -/

/-- The merge strategy registered for a channel key (`NONE` for keys not in
the registry). -/
def strategyOfKey (key : String) : MergeStrategy :=
  match SENSOR_CHANNELS.find? (fun ch => ch.list_key == key) with
  | some ch => ch.merge_strategy
  | Option.none => MergeStrategy.NONE

lemma registry_strategyOfKey :
    ∀ ch ∈ SENSOR_CHANNELS,
      strategyOfKey ch.list_key = ch.merge_strategy
        ∧ ch.list_key ∈ ALL_LIST_KEYS := by
  decide

lemma all_list_keys_nodup : ALL_LIST_KEYS.Nodup := by decide

lemma sensor_channels_keys_nodup :
    (SENSOR_CHANNELS.map (·.list_key)).Nodup := by decide

/-- An action is consistent when its channel key/strategy agree with the
registry (always true of classified lines). -/
def ConsistentAct : LineAction → Prop
  | LineAction.sensor _ _ (some ca) =>
    strategyOfKey ca.key = ca.strategy ∧ ca.key ∈ ALL_LIST_KEYS
  | _ => True

lemma mem_of_getLast?_eq {α : Type} {l : List α} {a : α}
    (h : l.getLast? = some a) : a ∈ l := by
  have hx : a ∈ l.getLast? := Option.mem_def.mpr h
  rcases List.mem_getLast?_eq_getLast hx with ⟨hne, heq⟩
  rw [heq]
  exact List.getLast_mem hne

lemma chactOf_consistent (decodeRec : DecodeCtx → SRecord) (is_ring : Bool)
    (data_type : String) (unix_timestamp : Int) (rawdata_v2 : Bool)
    (parsed_timestamp : String) (label_hr : Int) (data_bytes : List Nat)
    (ca : ChannelAction)
    (h : chactOf decodeRec is_ring data_type unix_timestamp rawdata_v2
        parsed_timestamp label_hr data_bytes = some ca) :
    strategyOfKey ca.key = ca.strategy ∧ ca.key ∈ ALL_LIST_KEYS := by
  unfold chactOf at h
  split at h
  · split at h
    · next channel heq =>
      have hmem : channel ∈ SENSOR_CHANNELS :=
        List.mem_of_mem_filter (mem_of_getLast?_eq heq)
      have hreg := registry_strategyOfKey channel hmem
      cases h
      exact hreg
    · cases h
  · cases h

lemma consistent_sensor_chactOf (dt : String) (uts : Int)
    (decodeRec : DecodeCtx → SRecord) (is_ring : Bool) (dta : String)
    (utsa : Int) (v2 : Bool) (ts : String) (lh : Int) (db : List Nat) :
    ConsistentAct (LineAction.sensor dt uts
      (chactOf decodeRec is_ring dta utsa v2 ts lh db)) := by
  rcases hch : chactOf decodeRec is_ring dta utsa v2 ts lh db with _ | ca
  · trivial
  · exact chactOf_consistent _ _ _ _ _ _ _ _ _ hch

lemma classify_consistent (jsonLoads : String → Option JObj)
    (decodeRec : DecodeCtx → SRecord) (is_ring : Bool) (line : String) :
    ConsistentAct (classifyLine jsonLoads decodeRec is_ring line) := by
  unfold classifyLine
  dsimp only
  repeat' split
  all_goals try trivial
  all_goals exact consistent_sensor_chactOf _ _ _ _ _ _ _ _ _ _

/-! ## Online/offline equivalence of the consecutive merge -/

/-- One step of the inline merge in `parse_lines` as seen by a single
channel: the collected prefix and the pending record. -/
def onlineStep (csp : List SRecord × Option SRecord) (item : SRecord) :
    List SRecord × Option SRecord :=
  match csp.2 with
  | some prev =>
    if prev.serial_number = item.serial_number then
      (csp.1, some (combineRecords prev item))
    else (csp.1 ++ [prev], some item)
  | Option.none => (csp.1, some item)

lemma mergeGo_online (rest : List SRecord) :
    ∀ (cs : List SRecord) (p : SRecord),
      (rest.foldl onlineStep (cs, some p)).1
          ++ (rest.foldl onlineStep (cs, some p)).2.toList
        = cs ++ mergeGo p rest := by
  induction rest with
  | nil => intro cs p; simp [mergeGo]
  | cons item rest ih =>
    intro cs p
    have hstep : onlineStep (cs, some p) item
        = if p.serial_number = item.serial_number then
            (cs, some (combineRecords p item))
          else (cs ++ [p], some item) := rfl
    by_cases h : p.serial_number = item.serial_number
    · have hm : mergeGo p (item :: rest) = mergeGo (combineRecords p item) rest := by
        simp only [mergeGo, if_pos h]
      rw [List.foldl_cons, hstep, if_pos h, hm]
      exact ih cs (combineRecords p item)
    · have hm : mergeGo p (item :: rest) = p :: mergeGo item rest := by
        simp only [mergeGo, if_neg h]
      rw [List.foldl_cons, hstep, if_neg h, hm, ih (cs ++ [p]) item]
      simp

lemma applyChannelAct_none_strategy (m : Bool) (s : PLState)
    (ca : ChannelAction) (h : ca.strategy = MergeStrategy.NONE) :
    applyChannelAct m s ca
      = { s with collectors := alAppendRec s.collectors ca.key ca.item } := by
  unfold applyChannelAct
  rw [if_pos h]

lemma applyChannelAct_true_chan_pend (s : PLState) (ca : ChannelAction)
    (h : ¬ ca.strategy = MergeStrategy.NONE) (key : String) :
    (chanOf (applyChannelAct true s ca) key,
        alGet (applyChannelAct true s ca).pending key)
      = if key = ca.key then
          onlineStep (chanOf s key, alGet s.pending key) ca.item
        else (chanOf s key, alGet s.pending key) := by
  unfold applyChannelAct
  rw [if_neg h]
  cases halg : alGet s.pending ca.key with
  | some prev =>
    dsimp only
    by_cases hser : prev.serial_number = ca.item.serial_number
    · rw [if_pos ⟨rfl, hser⟩]
      by_cases hk : key = ca.key
      · subst hk
        simp [chanOf, alGet_alSet, onlineStep, halg, hser]
      · simp [chanOf, alGet_alSet, hk]
    · rw [if_neg (fun hc => hser hc.2), if_pos rfl]
      by_cases hk : key = ca.key
      · subst hk
        simp [chanOf, alGet_alSet, alGet_alAppendRec, onlineStep, halg, hser]
      · simp [chanOf, alGet_alSet, alGet_alAppendRec, hk]
  | none =>
    dsimp only
    rw [if_pos rfl]
    by_cases hk : key = ca.key
    · subst hk
      simp [chanOf, alGet_alSet, onlineStep, halg]
    · simp [chanOf, alGet_alSet, hk]

lemma foldl_false_chan (acts : List LineAction) :
    ∀ (s : PLState) (key : String),
      chanOf (acts.foldl (applyAct false) s) key
        = chanOf s key ++ emitsFor key acts := by
  induction acts with
  | nil => intro s key; simp [emitsFor]
  | cons a as ih =>
    intro s key
    cases a with
    | skip => simpa [emitsFor] using ih s key
    | label obj =>
      have h1 : chanOf (applyAct false s (LineAction.label obj)) key
          = chanOf s key := rfl
      have := ih (applyAct false s (LineAction.label obj)) key
      rw [h1] at this
      simpa [emitsFor] using this
    | sensor dt uts chact =>
      cases chact with
      | none =>
        have h1 : chanOf (applyAct false s (LineAction.sensor dt uts Option.none)) key
            = chanOf s key := rfl
        have := ih (applyAct false s (LineAction.sensor dt uts Option.none)) key
        rw [h1] at this
        simpa [emitsFor] using this
      | some ca =>
        have happ : applyAct false s (LineAction.sensor dt uts (some ca))
            = { s with last_unix_timestamp := uts,
                       data_types := alBump s.data_types dt,
                       collectors := alAppendRec s.collectors ca.key ca.item } := by
          show applyChannelAct false _ ca = _
          rw [applyChannelAct_false]
        rw [List.foldl_cons, happ, ih _ key]
        show (alGet (alAppendRec s.collectors ca.key ca.item) key).getD []
            ++ emitsFor key as
          = chanOf s key ++ emitsFor key (LineAction.sensor dt uts (some ca) :: as)
        rw [alGet_alAppendRec]
        by_cases hk : key = ca.key
        · subst hk
          simp [emitsFor, chanOf]
        · have hk' : ¬ ca.key = key := fun e => hk e.symm
          simp [emitsFor, chanOf, hk, hk']

lemma foldl_false_pending (acts : List LineAction) :
    ∀ (s : PLState),
      (acts.foldl (applyAct false) s).pending = s.pending := by
  induction acts with
  | nil => intro s; rfl
  | cons a as ih =>
    intro s
    cases a with
    | skip => exact ih s
    | label obj => exact ih _
    | sensor dt uts chact =>
      cases chact with
      | none => exact ih _
      | some ca =>
        have happ : applyAct false s (LineAction.sensor dt uts (some ca))
            = { s with last_unix_timestamp := uts,
                       data_types := alBump s.data_types dt,
                       collectors := alAppendRec s.collectors ca.key ca.item } := by
          show applyChannelAct false _ ca = _
          rw [applyChannelAct_false]
        rw [List.foldl_cons, happ, ih]

lemma foldl_dtCount (acts : List LineAction) :
    ∀ (m : Bool) (s : PLState) (dt : String),
      dtCount (acts.foldl (applyAct m) s) dt
        = dtCount s dt + dtCountActs dt acts := by
  induction acts with
  | nil => intro m s dt; simp [dtCountActs]
  | cons a as ih =>
    intro m s dt
    cases a with
    | skip => simpa [dtCountActs] using ih m s dt
    | label obj =>
      have h1 : dtCount (applyAct m s (LineAction.label obj)) dt
          = dtCount s dt := rfl
      have := ih m (applyAct m s (LineAction.label obj)) dt
      rw [h1] at this
      simpa [dtCountActs] using this
    | sensor dt0 uts chact =>
      have hbump : ∀ (s' : PLState),
          dtCount { s' with last_unix_timestamp := uts,
                            data_types := alBump s'.data_types dt0 } dt
            = dtCount s' dt + (if dt0 = dt then 1 else 0) := by
        intro s'
        show (alGet (alBump s'.data_types dt0) dt).getD 0 = _
        rw [alGet_alBump]
        by_cases hk : dt = dt0
        · subst hk
          simp [dtCount]
        · have hk' : ¬ dt0 = dt := fun e => hk e.symm
          simp [dtCount, hk, hk']
      cases chact with
      | none =>
        have happ : applyAct m s (LineAction.sensor dt0 uts Option.none)
            = { s with last_unix_timestamp := uts,
                       data_types := alBump s.data_types dt0 } := rfl
        rw [List.foldl_cons, happ, ih m _ dt, hbump s]
        simp [dtCountActs]
        omega
      | some ca =>
        have happ : applyAct m s (LineAction.sensor dt0 uts (some ca))
            = applyChannelAct m { s with last_unix_timestamp := uts,
                                         data_types := alBump s.data_types dt0 } ca := rfl
        have hdtc : ∀ s' : PLState,
            dtCount (applyChannelAct m s' ca) dt = dtCount s' dt := by
          intro s'
          unfold dtCount
          rw [(applyChannelAct_parts m s' ca).2.2]
        rw [List.foldl_cons, happ, ih m _ dt, hdtc _, hbump s]
        simp [dtCountActs]
        omega

lemma mergeItems_eq_online (raw : List SRecord) :
    merge_consecutive_items raw
      = (raw.foldl onlineStep ([], Option.none)).1
          ++ (raw.foldl onlineStep ([], Option.none)).2.toList := by
  cases raw with
  | nil => rfl
  | cons x xs =>
    rw [show merge_consecutive_items (x :: xs) = mergeGo x xs from rfl,
      List.foldl_cons,
      show onlineStep ([], Option.none) x = ([], some x) from rfl,
      mergeGo_online xs [] x]
    rfl

lemma foldl_true_none_key (acts : List LineAction) :
    ∀ (s : PLState) (key : String),
      (∀ a ∈ acts, ConsistentAct a) →
      strategyOfKey key = MergeStrategy.NONE →
      chanOf (acts.foldl (applyAct true) s) key
          = chanOf s key ++ emitsFor key acts
        ∧ alGet (acts.foldl (applyAct true) s).pending key
          = alGet s.pending key := by
  induction acts with
  | nil => intro s key _ _; simp [emitsFor]
  | cons a as ih =>
    intro s key hcon hk
    have hrest : ∀ a' ∈ as, ConsistentAct a' :=
      fun a' ha' => hcon a' (List.mem_cons_of_mem _ ha')
    cases a with
    | skip => simpa [emitsFor] using ih s key hrest hk
    | label obj =>
      obtain ⟨c1, c2⟩ := ih (applyAct true s (LineAction.label obj)) key hrest hk
      have h1 : chanOf (applyAct true s (LineAction.label obj)) key
          = chanOf s key := rfl
      have h2 : alGet (applyAct true s (LineAction.label obj)).pending key
          = alGet s.pending key := rfl
      rw [h1] at c1
      rw [h2] at c2
      exact ⟨by rw [List.foldl_cons, c1]; simp [emitsFor],
        by rw [List.foldl_cons, c2]⟩
    | sensor dt uts chact =>
      cases chact with
      | none =>
        obtain ⟨c1, c2⟩ :=
          ih (applyAct true s (LineAction.sensor dt uts Option.none)) key hrest hk
        have h1 : chanOf (applyAct true s (LineAction.sensor dt uts Option.none)) key
            = chanOf s key := rfl
        have h2 : alGet
              (applyAct true s (LineAction.sensor dt uts Option.none)).pending key
            = alGet s.pending key := rfl
        rw [h1] at c1
        rw [h2] at c2
        exact ⟨by rw [List.foldl_cons, c1]; simp [emitsFor],
          by rw [List.foldl_cons, c2]⟩
      | some ca =>
        have hca : strategyOfKey ca.key = ca.strategy ∧ ca.key ∈ ALL_LIST_KEYS :=
          hcon _ (List.mem_cons_self _ _)
        obtain ⟨c1, c2⟩ :=
          ih (applyAct true s (LineAction.sensor dt uts (some ca))) key hrest hk
        by_cases hnone : ca.strategy = MergeStrategy.NONE
        · have happ : applyAct true s (LineAction.sensor dt uts (some ca))
              = { s with last_unix_timestamp := uts,
                         data_types := alBump s.data_types dt,
                         collectors := alAppendRec s.collectors ca.key ca.item } := by
            show applyChannelAct true _ ca = _
            rw [applyChannelAct_none_strategy _ _ _ hnone]
          rw [happ] at c1 c2
          constructor
          · rw [List.foldl_cons, happ, c1]
            show (alGet (alAppendRec s.collectors ca.key ca.item) key).getD []
                ++ emitsFor key as
              = chanOf s key ++ emitsFor key (LineAction.sensor dt uts (some ca) :: as)
            rw [alGet_alAppendRec]
            by_cases hkk : key = ca.key
            · subst hkk
              simp [emitsFor, chanOf]
            · have hk2 : ¬ ca.key = key := fun e => hkk e.symm
              simp [emitsFor, chanOf, hkk, hk2]
          · rw [List.foldl_cons, happ, c2]
        · have hkk : ¬ key = ca.key := by
            intro e
            apply hnone
            rw [← hca.1, ← e, hk]
          have hpair := applyChannelAct_true_chan_pend
            { s with last_unix_timestamp := uts,
                     data_types := alBump s.data_types dt } ca hnone key
          rw [if_neg hkk] at hpair
          have h1 : chanOf (applyAct true s (LineAction.sensor dt uts (some ca))) key
              = chanOf s key := congrArg Prod.fst hpair
          have h2 : alGet
                (applyAct true s (LineAction.sensor dt uts (some ca))).pending key
              = alGet s.pending key := congrArg Prod.snd hpair
          rw [h1] at c1
          rw [h2] at c2
          have hne : ¬ ca.key = key := fun e => hkk e.symm
          constructor
          · rw [List.foldl_cons, c1]
            simp [emitsFor, hne]
          · rw [List.foldl_cons, c2]

lemma foldl_true_merge_key (acts : List LineAction) :
    ∀ (s : PLState) (key : String),
      (∀ a ∈ acts, ConsistentAct a) →
      ¬ strategyOfKey key = MergeStrategy.NONE →
      (chanOf (acts.foldl (applyAct true) s) key,
          alGet (acts.foldl (applyAct true) s).pending key)
        = (emitsFor key acts).foldl onlineStep
            (chanOf s key, alGet s.pending key) := by
  induction acts with
  | nil => intro s key _ _; simp [emitsFor]
  | cons a as ih =>
    intro s key hcon hk
    have hrest : ∀ a' ∈ as, ConsistentAct a' :=
      fun a' ha' => hcon a' (List.mem_cons_of_mem _ ha')
    cases a with
    | skip => simpa [emitsFor] using ih s key hrest hk
    | label obj =>
      rw [List.foldl_cons, ih _ key hrest hk]
      rfl
    | sensor dt uts chact =>
      cases chact with
      | none =>
        rw [List.foldl_cons, ih _ key hrest hk]
        rfl
      | some ca =>
        have hca : strategyOfKey ca.key = ca.strategy ∧ ca.key ∈ ALL_LIST_KEYS :=
          hcon _ (List.mem_cons_self _ _)
        by_cases hnone : ca.strategy = MergeStrategy.NONE
        · have hkk : ¬ key = ca.key := by
            intro e
            apply hk
            rw [e, hca.1, hnone]
          have happ : applyAct true s (LineAction.sensor dt uts (some ca))
              = { s with last_unix_timestamp := uts,
                         data_types := alBump s.data_types dt,
                         collectors := alAppendRec s.collectors ca.key ca.item } := by
            show applyChannelAct true _ ca = _
            rw [applyChannelAct_none_strategy _ _ _ hnone]
          have h1 : chanOf (applyAct true s (LineAction.sensor dt uts (some ca))) key
              = chanOf s key := by
            rw [happ]
            show (alGet (alAppendRec s.collectors ca.key ca.item) key).getD [] = _
            rw [alGet_alAppendRec, if_neg hkk]
            rfl
          have h2 : alGet
                (applyAct true s (LineAction.sensor dt uts (some ca))).pending key
              = alGet s.pending key := by
            rw [happ]
          rw [List.foldl_cons, ih _ key hrest hk, h1, h2]
          have hne : ¬ ca.key = key := fun e => hkk e.symm
          simp [emitsFor, hne]
        · have hpair := applyChannelAct_true_chan_pend
            { s with last_unix_timestamp := uts,
                     data_types := alBump s.data_types dt } ca hnone key
          by_cases hkk : key = ca.key
          · subst hkk
            rw [if_pos rfl] at hpair
            have hstep :
                (chanOf (applyAct true s (LineAction.sensor dt uts (some ca))) ca.key,
                  alGet
                    (applyAct true s (LineAction.sensor dt uts (some ca))).pending
                    ca.key)
                = onlineStep (chanOf s ca.key, alGet s.pending ca.key) ca.item := hpair
            rw [List.foldl_cons, ih _ ca.key hrest hk, hstep]
            simp [emitsFor]
          · rw [if_neg hkk] at hpair
            have h1 : chanOf (applyAct true s (LineAction.sensor dt uts (some ca))) key
                = chanOf s key := congrArg Prod.fst hpair
            have h2 : alGet
                  (applyAct true s (LineAction.sensor dt uts (some ca))).pending key
                = alGet s.pending key := congrArg Prod.snd hpair
            rw [List.foldl_cons, ih _ key hrest hk, h1, h2]
            have hne : ¬ ca.key = key := fun e => hkk e.symm
            simp [emitsFor, hne]

/-! ## Key-set bookkeeping for the dict folds -/

lemma alGet_eq_none_of_not_mem {α : Type} (l : List (String × α)) (k : String)
    (h : k ∉ l.map Prod.fst) : alGet l k = Option.none := by
  induction l with
  | nil => rfl
  | cons p rest ih =>
    simp only [List.map_cons, List.mem_cons] at h
    push_neg at h
    show (if p.1 = k then some p.2 else alGet rest k) = Option.none
    rw [if_neg (fun e => h.1 e.symm)]
    exact ih h.2

lemma mem_alSet_keys {α : Type} (l : List (String × α)) (k : String) (v : α)
    (x : String) :
    x ∈ (alSet l k v).map Prod.fst ↔ x ∈ l.map Prod.fst ∨ x = k := by
  induction l with
  | nil => simp [alSet]
  | cons p rest ih =>
    show x ∈ ((if p.1 = k then (k, v) :: rest else p :: alSet rest k v).map
      Prod.fst) ↔ _
    split
    · next he => simp [← he]; tauto
    · simp [ih]; tauto

lemma alSet_keys_nodup {α : Type} (l : List (String × α)) (k : String) (v : α)
    (h : (l.map Prod.fst).Nodup) : ((alSet l k v).map Prod.fst).Nodup := by
  induction l with
  | nil => simp [alSet]
  | cons p rest ih =>
    simp only [List.map_cons, List.nodup_cons] at h
    show ((if p.1 = k then (k, v) :: rest else p :: alSet rest k v).map
      Prod.fst).Nodup
    split
    · next he => simpa [← he] using h
    · next he =>
      simp only [List.map_cons, List.nodup_cons]
      refine ⟨fun hmem => ?_, ih h.2⟩
      rcases (mem_alSet_keys rest k v p.1).mp hmem with hm | hm
      · exact h.1 hm
      · exact he hm

/-- Every reachable `pending` update is an `alSet` at the action's key. -/
lemma applyChannelAct_pending_shape (m : Bool) (s : PLState)
    (ca : ChannelAction) :
    (applyChannelAct m s ca).pending = s.pending
      ∨ ∃ v, (applyChannelAct m s ca).pending = alSet s.pending ca.key v := by
  unfold applyChannelAct
  repeat' split
  all_goals first
    | exact Or.inl rfl
    | exact Or.inr ⟨_, rfl⟩

lemma applyAct_pend_dt_nodup (m : Bool) (s : PLState) (a : LineAction)
    (hp : (s.pending.map Prod.fst).Nodup)
    (hd : (s.data_types.map Prod.fst).Nodup) :
    ((applyAct m s a).pending.map Prod.fst).Nodup
      ∧ ((applyAct m s a).data_types.map Prod.fst).Nodup := by
  cases a with
  | skip => exact ⟨hp, hd⟩
  | label obj => exact ⟨hp, hd⟩
  | sensor dt uts chact =>
    have hd' : ((alBump s.data_types dt).map Prod.fst).Nodup :=
      alSet_keys_nodup _ _ _ hd
    cases chact with
    | none => exact ⟨hp, hd'⟩
    | some ca =>
      constructor
      · rcases applyChannelAct_pending_shape m
          { s with last_unix_timestamp := uts,
                   data_types := alBump s.data_types dt } ca with h | ⟨v, h⟩
        · show ((applyChannelAct m _ ca).pending.map Prod.fst).Nodup
          rw [h]
          exact hp
        · show ((applyChannelAct m _ ca).pending.map Prod.fst).Nodup
          rw [h]
          exact alSet_keys_nodup _ _ _ hp
      · show ((applyChannelAct m _ ca).data_types.map Prod.fst).Nodup
        rw [(applyChannelAct_parts m _ ca).2.2]
        exact hd'

lemma foldl_pend_dt_nodup (acts : List LineAction) :
    ∀ (m : Bool) (s : PLState),
      (s.pending.map Prod.fst).Nodup →
      (s.data_types.map Prod.fst).Nodup →
      ((acts.foldl (applyAct m) s).pending.map Prod.fst).Nodup
        ∧ ((acts.foldl (applyAct m) s).data_types.map Prod.fst).Nodup := by
  induction acts with
  | nil => intro m s hp hd; exact ⟨hp, hd⟩
  | cons a as ih =>
    intro m s hp hd
    have h := applyAct_pend_dt_nodup m s a hp hd
    rw [List.foldl_cons]
    exact ih m _ h.1 h.2

/-! ## The end-of-loop pending flush -/

lemma alGet_flushfold_not_mem (pend : List (String × SRecord)) :
    ∀ (c : List (String × List SRecord)) (key : String),
      key ∉ pend.map Prod.fst →
      alGet (pend.foldl (fun c kr => alAppendRec c kr.1 kr.2) c) key
        = alGet c key := by
  induction pend with
  | nil => intro c key _; rfl
  | cons kr rest ih =>
    intro c key h
    simp only [List.map_cons, List.mem_cons] at h
    push_neg at h
    rw [List.foldl_cons, ih _ key h.2]
    show alGet (alSet c kr.1 _) key = _
    rw [alGet_alSet, if_neg h.1]

lemma flushfold_chan (pend : List (String × SRecord)) :
    ∀ (c : List (String × List SRecord)) (key : String),
      (pend.map Prod.fst).Nodup →
      (alGet (pend.foldl (fun c kr => alAppendRec c kr.1 kr.2) c) key).getD []
        = (alGet c key).getD [] ++ (alGet pend key).toList := by
  induction pend with
  | nil => intro c key _; simp [alGet]
  | cons kr rest ih =>
    intro c key hnod
    simp only [List.map_cons, List.nodup_cons] at hnod
    rw [List.foldl_cons]
    by_cases hk : kr.1 = key
    · have hnm : key ∉ rest.map Prod.fst := hk ▸ hnod.1
      rw [alGet_flushfold_not_mem rest _ key hnm]
      show (alGet (alSet c kr.1 _) key).getD []
        = _ ++ ((if kr.1 = key then some kr.2 else alGet rest key)).toList
      rw [alGet_alSet, if_pos hk.symm, if_pos hk, hk]
      rfl
    · rw [ih _ key hnod.2]
      show (alGet (alSet c kr.1 _) key).getD [] ++ _
        = _ ++ ((if kr.1 = key then some kr.2 else alGet rest key)).toList
      rw [alGet_alSet, if_neg (fun e => hk e.symm), if_neg hk]

lemma flushPending_chan (s : PLState) (key : String)
    (h : (s.pending.map Prod.fst).Nodup) :
    chanOf (flushPending s) key
      = chanOf s key ++ (alGet s.pending key).toList := by
  show (alGet (s.pending.foldl (fun c kr => alAppendRec c kr.1 kr.2)
      s.collectors) key).getD [] = _
  exact flushfold_chan s.pending s.collectors key h

/-! ## Concatenation laws of the act-level views -/

lemma emitsFor_append (key : String) (l1 l2 : List LineAction) :
    emitsFor key (l1 ++ l2) = emitsFor key l1 ++ emitsFor key l2 := by
  induction l1 with
  | nil => simp [emitsFor]
  | cons a as ih =>
    cases a with
    | skip => simpa [emitsFor] using ih
    | label obj => simpa [emitsFor] using ih
    | sensor dt uts chact =>
      cases chact with
      | none => simpa [emitsFor] using ih
      | some ca => simp [emitsFor, ih]

lemma dtCountActs_append (dt : String) (l1 l2 : List LineAction) :
    dtCountActs dt (l1 ++ l2) = dtCountActs dt l1 + dtCountActs dt l2 := by
  induction l1 with
  | nil => simp [dtCountActs]
  | cons a as ih => simp [dtCountActs, ih, Nat.add_assoc]

lemma lastTsActs_append (l1 l2 : List LineAction) :
    ∀ t, lastTsActs (l1 ++ l2) t = lastTsActs l2 (lastTsActs l1 t) := by
  induction l1 with
  | nil => intro t; rfl
  | cons a as ih =>
    intro t
    cases a with
    | skip => simpa [lastTsActs] using ih t
    | label obj => simpa [lastTsActs] using ih t
    | sensor dt uts chact => simpa [lastTsActs] using ih uts

lemma labelsFromActs_append (l1 l2 : List LineAction) :
    ∀ t, labelsFromActs (l1 ++ l2) t
      = labelsFromActs l1 t ++ labelsFromActs l2 (lastTsActs l1 t) := by
  induction l1 with
  | nil => intro t; rfl
  | cons a as ih =>
    intro t
    cases a with
    | skip => simpa [labelsFromActs, lastTsActs] using ih t
    | label obj => simpa [labelsFromActs, lastTsActs] using ih t
    | sensor dt uts chact => simpa [labelsFromActs, lastTsActs] using ih uts

lemma labelsFromActs_fst (l : List LineAction) :
    ∀ t t', (labelsFromActs l t).map Prod.fst
      = (labelsFromActs l t').map Prod.fst := by
  induction l with
  | nil => intro t t'; rfl
  | cons a as ih =>
    intro t t'
    cases a with
    | skip => simpa [labelsFromActs] using ih t t'
    | label obj => simpa [labelsFromActs] using ih t t'
    | sensor dt uts chact => simp [labelsFromActs]

/-- A batch's classified line sequence has no annotation line before its
first structurally valid sensor line (skipped lines do not count). -/
def noLabelBeforeSensor : List LineAction → Bool
  | [] => true
  | LineAction.label _ :: _ => false
  | LineAction.sensor _ _ _ :: _ => true
  | LineAction.skip :: rest => noLabelBeforeSensor rest

lemma labelsFromActs_baseline (l : List LineAction) :
    noLabelBeforeSensor l = true →
    ∀ t t', labelsFromActs l t = labelsFromActs l t' := by
  induction l with
  | nil => intro _ t t'; rfl
  | cons a as ih =>
    intro h t t'
    cases a with
    | skip =>
      show labelsFromActs as t = labelsFromActs as t'
      exact ih h t t'
    | label obj => simp [noLabelBeforeSensor] at h
    | sensor dt uts chact => rfl

lemma emitsFor_flatten (key : String) (lss : List (List LineAction)) :
    emitsFor key lss.flatten = (lss.map (emitsFor key)).flatten := by
  induction lss with
  | nil => rfl
  | cons l rest ih => simp [emitsFor_append, ih]

lemma dtCountActs_flatten (dt : String) (lss : List (List LineAction)) :
    dtCountActs dt lss.flatten = (lss.map (dtCountActs dt)).sum := by
  induction lss with
  | nil => rfl
  | cons l rest ih => simp [dtCountActs_append, ih]

lemma labelsFromActs_flatten_fst (lss : List (List LineAction)) :
    ∀ t, (labelsFromActs lss.flatten t).map Prod.fst
      = ((lss.map (fun l => labelsFromActs l 0)).flatten).map Prod.fst := by
  induction lss with
  | nil => intro t; rfl
  | cons l rest ih =>
    intro t
    rw [List.flatten_cons, labelsFromActs_append]
    simp only [List.map_cons, List.flatten_cons, List.map_append]
    rw [labelsFromActs_fst l t 0, ih _]

lemma labelsFromActs_flatten_eq (lss : List (List LineAction)) :
    (∀ l ∈ lss, noLabelBeforeSensor l = true) →
    ∀ t, labelsFromActs lss.flatten t
      = (lss.map (fun l => labelsFromActs l 0)).flatten := by
  induction lss with
  | nil => intro _ t; rfl
  | cons l rest ih =>
    intro h t
    rw [List.flatten_cons, labelsFromActs_append,
      labelsFromActs_baseline l (h l (List.mem_cons_self _ _)) t 0]
    simp only [List.map_cons, List.flatten_cons]
    rw [ih (fun l' hl' => h l' (List.mem_cons_of_mem _ hl')) _]

lemma map_flatten_eq {α β : Type} (f : α → β) (lss : List (List α)) :
    lss.flatten.map f = (lss.map (List.map f)).flatten := by
  induction lss with
  | nil => rfl
  | cons l rest ih => simp [ih]

/-! ## Both decode pipelines, per batch -/

lemma alGet_initchan (chs : List SensorChannel) (key : String) :
    (alGet (chs.map (fun ch => (ch.list_key, ([] : List SRecord)))) key).getD []
      = [] := by
  induction chs with
  | nil => rfl
  | cons ch rest ih =>
    show ((if ch.list_key = key then some [] else alGet _ key)).getD [] = []
    split
    · rfl
    · exact ih

lemma chanOf_init (key : String) : chanOf initPLState key = [] :=
  alGet_initchan SENSOR_CHANNELS key

lemma acts_consistent (jl : String → Option JObj) (dr : DecodeCtx → SRecord)
    (ir : Bool) (lines : List String) :
    ∀ a ∈ lines.map (classifyLine jl dr ir), ConsistentAct a := by
  intro a ha
  rcases List.mem_map.mp ha with ⟨line, _, rfl⟩
  exact classify_consistent jl dr ir line

lemma parse_lines_fold_map (jl : String → Option JObj) (dr : DecodeCtx → SRecord)
    (lines : List String) (ir m : Bool) :
    lines.foldl (plStep jl dr ir m) initPLState
      = (lines.map (classifyLine jl dr ir)).foldl (applyAct m) initPLState := by
  rw [List.foldl_map]
  rfl

lemma parse_lines_labels (jl : String → Option JObj) (dr : DecodeCtx → SRecord)
    (lines : List String) (ir m : Bool) :
    (parse_lines jl dr lines ir m).labels
      = labelsFromActs (lines.map (classifyLine jl dr ir)) 0 := by
  have hlab := (foldl_applyAct_labels_ts
    (lines.map (classifyLine jl dr ir)) m initPLState).1
  unfold parse_lines
  split
  · show (flushPending _).labels = _
    rw [show ∀ x : PLState, (flushPending x).labels = x.labels from fun _ => rfl,
      parse_lines_fold_map, hlab]
    rfl
  · rw [parse_lines_fold_map, hlab]
    rfl

lemma parse_lines_dt (jl : String → Option JObj) (dr : DecodeCtx → SRecord)
    (lines : List String) (ir m : Bool) (dt : String) :
    dtCount (parse_lines jl dr lines ir m) dt
      = dtCountActs dt (lines.map (classifyLine jl dr ir)) := by
  have h0 : dtCount initPLState dt = 0 := rfl
  unfold parse_lines
  split
  · show dtCount (flushPending _) dt = _
    rw [show ∀ x : PLState, dtCount (flushPending x) dt = dtCount x dt
        from fun _ => rfl,
      parse_lines_fold_map, foldl_dtCount _ m initPLState dt, h0, Nat.zero_add]
  · rw [parse_lines_fold_map, foldl_dtCount _ m initPLState dt, h0, Nat.zero_add]

lemma parse_lines_dt_nodup (jl : String → Option JObj) (dr : DecodeCtx → SRecord)
    (lines : List String) (ir m : Bool) :
    ((parse_lines jl dr lines ir m).data_types.map Prod.fst).Nodup := by
  have h := foldl_pend_dt_nodup (lines.map (classifyLine jl dr ir)) m initPLState
    List.Pairwise.nil List.Pairwise.nil
  unfold parse_lines
  split
  · show ((flushPending _).data_types.map Prod.fst).Nodup
    rw [show ∀ x : PLState, (flushPending x).data_types = x.data_types
        from fun _ => rfl,
      parse_lines_fold_map]
    exact h.2
  · rw [parse_lines_fold_map]
    exact h.2

lemma parse_lines_false_chan (jl : String → Option JObj)
    (dr : DecodeCtx → SRecord) (lines : List String) (ir : Bool) (key : String) :
    chanOf (parse_lines jl dr lines ir false) key
      = emitsFor key (lines.map (classifyLine jl dr ir)) := by
  show chanOf (lines.foldl (plStep jl dr ir false) initPLState) key = _
  rw [parse_lines_fold_map,
    foldl_false_chan (lines.map (classifyLine jl dr ir)) initPLState key,
    chanOf_init, List.nil_append]

lemma parse_lines_true_chan (jl : String → Option JObj)
    (dr : DecodeCtx → SRecord) (lines : List String) (ir : Bool) (key : String) :
    chanOf (parse_lines jl dr lines ir true) key
      = if strategyOfKey key = MergeStrategy.NONE
        then emitsFor key (lines.map (classifyLine jl dr ir))
        else merge_consecutive_items
          (emitsFor key (lines.map (classifyLine jl dr ir))) := by
  have hcon := acts_consistent jl dr ir lines
  have hnodup := foldl_pend_dt_nodup (lines.map (classifyLine jl dr ir)) true
    initPLState List.Pairwise.nil List.Pairwise.nil
  show chanOf (flushPending (lines.foldl (plStep jl dr ir true) initPLState))
      key = _
  rw [parse_lines_fold_map, flushPending_chan _ key hnodup.1]
  by_cases hstrat : strategyOfKey key = MergeStrategy.NONE
  · obtain ⟨c1, c2⟩ := foldl_true_none_key
      (lines.map (classifyLine jl dr ir)) initPLState key hcon hstrat
    rw [c1, c2, if_pos hstrat, chanOf_init,
      show alGet initPLState.pending key = Option.none from rfl]
    simp
  · have hpair := foldl_true_merge_key
      (lines.map (classifyLine jl dr ir)) initPLState key hcon hstrat
    rw [show (chanOf initPLState key, alGet initPLState.pending key)
        = (([] : List SRecord), (Option.none : Option SRecord)) by
      rw [chanOf_init]
      rfl] at hpair
    have h1 : chanOf ((lines.map (classifyLine jl dr ir)).foldl (applyAct true)
          initPLState) key
        = ((emitsFor key (lines.map (classifyLine jl dr ir))).foldl onlineStep
            ([], Option.none)).1 := congrArg Prod.fst hpair
    have h2 : alGet ((lines.map (classifyLine jl dr ir)).foldl (applyAct true)
          initPLState).pending key
        = ((emitsFor key (lines.map (classifyLine jl dr ir))).foldl onlineStep
            ([], Option.none)).2 := congrArg Prod.snd hpair
    rw [if_neg hstrat, mergeItems_eq_online, h1, h2]

/-! ## `merge_partial_results`, key by key -/

lemma extendKeys_not_mem (pc : List (String × List SRecord))
    (keys : List String) :
    ∀ c key, key ∉ keys → alGet (extendKeys pc keys c) key = alGet c key := by
  induction keys with
  | nil => intro c key _; rfl
  | cons k0 rest ih =>
    intro c key h
    simp only [List.mem_cons] at h
    push_neg at h
    show alGet (extendKeys pc rest (alSet c k0 _)) key = _
    rw [ih _ key h.2, alGet_alSet, if_neg h.1]

lemma extendKeys_at (pc : List (String × List SRecord)) (keys : List String) :
    keys.Nodup → ∀ c key, key ∈ keys →
      (alGet (extendKeys pc keys c) key).getD []
        = (alGet c key).getD [] ++ (alGet pc key).getD [] := by
  induction keys with
  | nil => intro _ c key h; simp at h
  | cons k0 rest ih =>
    intro hnod c key hmem
    simp only [List.nodup_cons] at hnod
    show (alGet (extendKeys pc rest (alSet c k0 _)) key).getD [] = _
    rcases List.mem_cons.mp hmem with he | hm
    · subst he
      rw [extendKeys_not_mem pc rest _ key hnod.1, alGet_alSet, if_pos rfl]
      rfl
    · have hne : key ≠ k0 := fun e => hnod.1 (e ▸ hm)
      rw [ih hnod.2 _ key hm, alGet_alSet, if_neg hne]

lemma addCounts_not_mem (entries : List (String × Nat)) :
    ∀ d dt, dt ∉ entries.map Prod.fst →
      alGet (addCounts entries d) dt = alGet d dt := by
  induction entries with
  | nil => intro d dt _; rfl
  | cons kv rest ih =>
    intro d dt h
    simp only [List.map_cons, List.mem_cons] at h
    push_neg at h
    show alGet (addCounts rest (alSet d kv.1 _)) dt = _
    rw [ih _ dt h.2, alGet_alSet, if_neg h.1]

lemma addCounts_at (entries : List (String × Nat)) :
    (entries.map Prod.fst).Nodup → ∀ d dt,
      (alGet (addCounts entries d) dt).getD 0
        = (alGet d dt).getD 0 + (alGet entries dt).getD 0 := by
  induction entries with
  | nil => intro _ d dt; simp [alGet, addCounts]
  | cons kv rest ih =>
    intro hnod d dt
    simp only [List.map_cons, List.nodup_cons] at hnod
    show (alGet (addCounts rest (alSet d kv.1 _)) dt).getD 0
      = _ + ((if kv.1 = dt then some kv.2 else alGet rest dt)).getD 0
    by_cases hk : kv.1 = dt
    · subst hk
      rw [addCounts_not_mem rest _ kv.1 hnod.1, alGet_alSet, if_pos rfl,
        if_pos rfl]
      rfl
    · rw [ih hnod.2 _ dt, alGet_alSet, if_neg (fun e => hk e.symm), if_neg hk]

lemma mergePass_not_mem (chs : List SensorChannel) :
    ∀ c key, (∀ ch ∈ chs, ¬ ch.list_key = key) →
      alGet (mergePass chs c) key = alGet c key := by
  induction chs with
  | nil => intro c key _; rfl
  | cons ch rest ih =>
    intro c key h
    show alGet (mergePass rest
      (if ch.merge_strategy = MergeStrategy.NONE then c
       else alSet c ch.list_key _)) key = _
    rw [ih _ key (fun ch' h' => h ch' (List.mem_cons_of_mem _ h'))]
    split
    · rfl
    · rw [alGet_alSet, if_neg (fun e => h ch (List.mem_cons_self _ _) e.symm)]

lemma mergePass_at (chs : List SensorChannel) :
    (chs.map (·.list_key)).Nodup → ∀ (ch0 : SensorChannel), ch0 ∈ chs →
      ∀ c, (alGet (mergePass chs c) ch0.list_key).getD []
        = if ch0.merge_strategy = MergeStrategy.NONE
          then (alGet c ch0.list_key).getD []
          else merge_consecutive_items ((alGet c ch0.list_key).getD []) := by
  induction chs with
  | nil => intro _ ch0 h c; simp at h
  | cons ch rest ih =>
    intro hnod ch0 hmem c
    simp only [List.map_cons, List.nodup_cons] at hnod
    rcases List.mem_cons.mp hmem with he | hm
    · subst he
      have hnm : ∀ ch' ∈ rest, ¬ ch'.list_key = ch0.list_key := by
        intro ch' h' e
        apply hnod.1
        rw [← e]
        exact List.mem_map.mpr ⟨ch', h', rfl⟩
      show (alGet (mergePass rest
        (if ch0.merge_strategy = MergeStrategy.NONE then c
         else alSet c ch0.list_key _)) ch0.list_key).getD [] = _
      rw [mergePass_not_mem rest _ ch0.list_key hnm]
      by_cases hs : ch0.merge_strategy = MergeStrategy.NONE
      · rw [if_pos hs, if_pos hs]
      · rw [if_neg hs, if_neg hs, alGet_alSet, if_pos rfl]
        rfl
    · have hne : ¬ ch.list_key = ch0.list_key := by
        intro e
        apply hnod.1
        rw [e]
        exact List.mem_map.mpr ⟨ch0, hm, rfl⟩
      have halg : alGet
          (if ch.merge_strategy = MergeStrategy.NONE then c
           else alSet c ch.list_key
             (merge_consecutive_items ((alGet c ch.list_key).getD [])))
          ch0.list_key = alGet c ch0.list_key := by
        split
        · rfl
        · rw [alGet_alSet, if_neg (fun e => hne e.symm)]
      show (alGet (mergePass rest
        (if ch.merge_strategy = MergeStrategy.NONE then c
         else alSet c ch.list_key _)) ch0.list_key).getD [] = _
      rw [ih hnod.2 ch0 hm _, halg]

attribute [irreducible] extendKeys mergePass

lemma mergeAcc_chan (parts : List PLState) :
    ∀ (acc : PLState) (key : String), key ∈ ALL_LIST_KEYS →
      chanOf (parts.foldl mergeAccStep acc) key
        = chanOf acc key ++ (parts.map (fun p => chanOf p key)).flatten := by
  induction parts with
  | nil => intro acc key _; simp
  | cons p ps ih =>
    intro acc key hmem
    rw [List.foldl_cons, ih _ key hmem]
    have hstep : chanOf (mergeAccStep acc p) key
        = chanOf acc key ++ chanOf p key := by
      show (alGet (extendKeys p.collectors ALL_LIST_KEYS acc.collectors)
        key).getD [] = _
      exact extendKeys_at p.collectors ALL_LIST_KEYS all_list_keys_nodup
        acc.collectors key hmem
    rw [hstep]
    simp

lemma mergeAcc_labels (parts : List PLState) :
    ∀ acc : PLState, (parts.foldl mergeAccStep acc).labels
      = acc.labels ++ (parts.map (·.labels)).flatten := by
  induction parts with
  | nil => intro acc; simp
  | cons p ps ih =>
    intro acc
    rw [List.foldl_cons, ih _,
      show (mergeAccStep acc p).labels = acc.labels ++ p.labels from rfl]
    simp

lemma mergeAcc_dt (parts : List PLState) :
    ∀ acc : PLState, (∀ p ∈ parts, (p.data_types.map Prod.fst).Nodup) →
      ∀ dt, dtCount (parts.foldl mergeAccStep acc) dt
        = dtCount acc dt + (parts.map (fun p => dtCount p dt)).sum := by
  induction parts with
  | nil => intro acc _ dt; simp
  | cons p ps ih =>
    intro acc h dt
    rw [List.foldl_cons, ih _ (fun q hq => h q (List.mem_cons_of_mem _ hq)) dt]
    have hstep : dtCount (mergeAccStep acc p) dt
        = dtCount acc dt + dtCount p dt := by
      show (alGet (addCounts p.data_types acc.data_types) dt).getD 0 = _
      exact addCounts_at p.data_types (h p (List.mem_cons_self _ _))
        acc.data_types dt
    rw [hstep]
    simp [Nat.add_assoc]

lemma merge_batch_results_labels (parts : List PLState) :
    (merge_batch_results parts).labels = (parts.map (·.labels)).flatten := by
  show (parts.foldl mergeAccStep initPLState).labels = _
  rw [mergeAcc_labels parts initPLState]
  rfl

lemma merge_batch_results_dt (parts : List PLState)
    (h : ∀ p ∈ parts, (p.data_types.map Prod.fst).Nodup) (dt : String) :
    dtCount (merge_batch_results parts) dt
      = (parts.map (fun p => dtCount p dt)).sum := by
  show dtCount (parts.foldl mergeAccStep initPLState) dt = _
  rw [mergeAcc_dt parts initPLState h dt,
    show dtCount initPLState dt = 0 from rfl, Nat.zero_add]

lemma merge_batch_results_chan (parts : List PLState) (ch0 : SensorChannel)
    (hmem : ch0 ∈ SENSOR_CHANNELS) :
    chanOf (merge_batch_results parts) ch0.list_key
      = if ch0.merge_strategy = MergeStrategy.NONE
        then (parts.map (fun p => chanOf p ch0.list_key)).flatten
        else merge_consecutive_items
          ((parts.map (fun p => chanOf p ch0.list_key)).flatten) := by
  have hacc := mergeAcc_chan parts initPLState ch0.list_key
    (registry_strategyOfKey ch0 hmem).2
  rw [chanOf_init, List.nil_append] at hacc
  show (alGet (mergePass SENSOR_CHANNELS
    (parts.foldl mergeAccStep initPLState).collectors) ch0.list_key).getD []
    = _
  rw [mergePass_at SENSOR_CHANNELS sensor_channels_keys_nodup ch0 hmem _,
    show (alGet (parts.foldl mergeAccStep initPLState).collectors
        ch0.list_key).getD []
      = chanOf (parts.foldl mergeAccStep initPLState) ch0.list_key from rfl,
    hacc]

/-- **C1** — parallel-mode decode (per-batch `parse_lines` with
`merge_consecutive=False`, partial results reassembled in ascending
`batch_id` order and merged by `finalize_parallel_results`) versus the
single-stream fallback (`parse_lines` over the whole line stream with
`merge_consecutive=True`), for the same fixed input stream
(`batches.flatten`).  The per-channel tables agree on every registered
channel key (row order included) and the data-type histogram agrees on every
type.  The labels lists agree as annotation objects in order; the
`unix_timestamp` stamps also agree **provided** no batch has an annotation
line before the batch's first structurally valid sensor line — a batch
worker restarts `last_unix_timestamp` at `0`, so an annotation at the head
of a later batch is stamped `0` in parallel mode but with the previous
batch's last sensor timestamp in single mode (`C1_counterexample`). -/
theorem C1_parallel_serial_equivalence (jl : String → Option JObj)
    (dr : DecodeCtx → SRecord) (batches : List (List String)) (ir : Bool) :
    (∀ key ∈ ALL_LIST_KEYS,
      chanOf (parallel_pipeline jl dr batches ir) key
        = chanOf (single_pipeline jl dr batches.flatten ir) key)
    ∧ (∀ dt, dtCount (parallel_pipeline jl dr batches ir) dt
        = dtCount (single_pipeline jl dr batches.flatten ir) dt)
    ∧ ((parallel_pipeline jl dr batches ir).labels.map Prod.fst
        = (single_pipeline jl dr batches.flatten ir).labels.map Prod.fst)
    ∧ ((∀ b ∈ batches,
          noLabelBeforeSensor (b.map (classifyLine jl dr ir)) = true) →
        (parallel_pipeline jl dr batches ir).labels
          = (single_pipeline jl dr batches.flatten ir).labels) := by
  have hPlab : (parallel_pipeline jl dr batches ir).labels
      = (batches.map
          (fun b => labelsFromActs (b.map (classifyLine jl dr ir)) 0)).flatten := by
    have hm : (batches.map (fun b => parse_lines jl dr b ir false)).map (·.labels)
        = batches.map (fun b => labelsFromActs (b.map (classifyLine jl dr ir)) 0) := by
      rw [List.map_map]
      apply List.map_congr_left
      intro b _
      exact parse_lines_labels jl dr b ir false
    show (merge_batch_results (batches.map (fun b =>
      parse_lines jl dr b ir false))).labels = _
    rw [merge_batch_results_labels, hm]
  have hSlab : (single_pipeline jl dr batches.flatten ir).labels
      = labelsFromActs ((batches.flatten).map (classifyLine jl dr ir)) 0 :=
    parse_lines_labels jl dr batches.flatten ir true
  refine ⟨?_, ?_, ?_, ?_⟩
  · intro key hk
    rcases List.mem_map.mp hk with ⟨ch0, hch0, rfl⟩
    have hsingle : chanOf (single_pipeline jl dr batches.flatten ir) ch0.list_key
        = if ch0.merge_strategy = MergeStrategy.NONE
          then emitsFor ch0.list_key
            ((batches.flatten).map (classifyLine jl dr ir))
          else merge_consecutive_items
            (emitsFor ch0.list_key
              ((batches.flatten).map (classifyLine jl dr ir))) := by
      have h := parse_lines_true_chan jl dr batches.flatten ir ch0.list_key
      rw [(registry_strategyOfKey ch0 hch0).1] at h
      exact h
    have hmapeq : (batches.map (fun b => parse_lines jl dr b ir false)).map
          (fun p => chanOf p ch0.list_key)
        = batches.map
          (fun b => emitsFor ch0.list_key (b.map (classifyLine jl dr ir))) := by
      rw [List.map_map]
      apply List.map_congr_left
      intro b _
      exact parse_lines_false_chan jl dr b ir ch0.list_key
    have hflat : (batches.map
          (fun b => emitsFor ch0.list_key (b.map (classifyLine jl dr ir)))).flatten
        = emitsFor ch0.list_key ((batches.flatten).map (classifyLine jl dr ir)) := by
      rw [map_flatten_eq (classifyLine jl dr ir) batches, emitsFor_flatten,
        List.map_map]
      rfl
    show chanOf (merge_batch_results (batches.map (fun b =>
      parse_lines jl dr b ir false))) ch0.list_key = _
    rw [merge_batch_results_chan (batches.map (fun b =>
        parse_lines jl dr b ir false)) ch0 hch0,
      hmapeq, hflat, hsingle]
  · intro dt
    have hnodups : ∀ p ∈ batches.map (fun b => parse_lines jl dr b ir false),
        (p.data_types.map Prod.fst).Nodup := by
      intro p hp
      rcases List.mem_map.mp hp with ⟨b, _, rfl⟩
      exact parse_lines_dt_nodup jl dr b ir false
    have hmapeq : (batches.map (fun b => parse_lines jl dr b ir false)).map
          (fun p => dtCount p dt)
        = batches.map
          (fun b => dtCountActs dt (b.map (classifyLine jl dr ir))) := by
      rw [List.map_map]
      apply List.map_congr_left
      intro b _
      exact parse_lines_dt jl dr b ir false dt
    have hflat : (batches.map
          (fun b => dtCountActs dt (b.map (classifyLine jl dr ir)))).sum
        = dtCountActs dt ((batches.flatten).map (classifyLine jl dr ir)) := by
      rw [map_flatten_eq (classifyLine jl dr ir) batches, dtCountActs_flatten,
        List.map_map]
      rfl
    have hS : dtCount (single_pipeline jl dr batches.flatten ir) dt
        = dtCountActs dt ((batches.flatten).map (classifyLine jl dr ir)) :=
      parse_lines_dt jl dr batches.flatten ir true dt
    show dtCount (merge_batch_results (batches.map (fun b =>
      parse_lines jl dr b ir false))) dt = _
    rw [merge_batch_results_dt (batches.map (fun b =>
        parse_lines jl dr b ir false)) hnodups dt,
      hmapeq, hflat, hS]
  · have h := labelsFromActs_flatten_fst
      (batches.map (List.map (classifyLine jl dr ir))) 0
    rw [← map_flatten_eq (classifyLine jl dr ir) batches, List.map_map] at h
    rw [hPlab, hSlab, h]
    rfl
  · intro hcond
    have hc : ∀ l ∈ batches.map (List.map (classifyLine jl dr ir)),
        noLabelBeforeSensor l = true := by
      intro l hl
      rcases List.mem_map.mp hl with ⟨b, hb, rfl⟩
      exact hcond b hb
    have h := labelsFromActs_flatten_eq
      (batches.map (List.map (classifyLine jl dr ir))) hc 0
    rw [← map_flatten_eq (classifyLine jl dr ir) batches, List.map_map] at h
    rw [hPlab, hSlab, h]
    rfl

/-- A concrete `json.loads` that accepts every line as the annotation object
with a `label` and a `timestamp` key. -/
def c1jl : String → Option JObj :=
  fun _ => some [("label", JVal.null), ("timestamp", JVal.null)]

def c1dr : DecodeCtx → SRecord :=
  fun _ => { serial_number := Option.none, arr_size := 0, mdata := [], meta := 0 }

/-- A structurally valid ACC (`52`/type `18`) sensor line with unix
timestamp `0x00000001`. -/
def c1sensor : String := "2025-01-01 00:00:00,00,00,52,18,00,00,00,00,01,00"

/-- An annotation line (`c1jl` parses it to a label/timestamp object). -/
def c1ann : String := "\x7b\x7d"

/-- Batch split that puts the annotation at the head of the second batch. -/
def c1batches : List (List String) := [[c1sensor], [c1ann]]

/-- The annotation-carrying counterexample to verbatim-equal labels: the
annotation opens the second batch, so its parallel worker stamps it with its
own fresh `last_unix_timestamp = 0`, while the single stream stamps it with
the sensor line's timestamp `1`. -/
theorem C1_counterexample :
    (parallel_pipeline c1jl c1dr c1batches false).labels
      ≠ (single_pipeline c1jl c1dr c1batches.flatten false).labels := by
  have hP : (parallel_pipeline c1jl c1dr c1batches false).labels
      = ((c1batches.map (fun b => parse_lines c1jl c1dr b false false)).map
          (·.labels)).flatten :=
    merge_batch_results_labels (c1batches.map
      (fun b => parse_lines c1jl c1dr b false false))
  have hS : (single_pipeline c1jl c1dr c1batches.flatten false).labels
      = labelsFromActs ((c1batches.flatten).map (classifyLine c1jl c1dr false))
          0 :=
    parse_lines_labels c1jl c1dr c1batches.flatten false true
  simp only [hP, hS]
  decide

/-- Batches whose every annotation is preceded in its own batch by a sensor
line, for instantiating the equivalence. -/
def c1wbatches : List (List String) := [[c1sensor], [c1sensor, c1ann]]

/-! ## Parallel failure handling (parser_legacy.py 216-224, 391-400,
parse_file phases 2/6)

The `as_completed` loop is modelled on the sequence of future completions
in completion order: each entry is a `batch_id` with the worker's outcome
(`future.result()` either returns a partial result or re-raises the
worker's exception).  On the first failing future the loop cancels every
other future and raises `RuntimeError(f"parallel parse failed at batch
{batch_id}")`; the recursion stops there, so nothing of the remaining
completions is consumed — the cancellation is visible as invariance of the
outcome under everything past the first failure.  `parse_file`'s phases
after the dispatcher (`_save_to_parquet`, `_write_manifest`) are modelled
as filesystem-write effects; an exception from the dispatcher propagates
ahead of both.  `parse_file_task`'s `except Exception` handler stores
status `"error"` with the exception's message. -/

inductive FsWrite where
  | parquet (dir : String)
  | manifest (dir : String)
deriving DecidableEq, Repr

/-- The `for future in as_completed(futures)` loop (parser_legacy.py
205-233): collected results in completion order, or the raised
`RuntimeError` of the first failed batch. -/
def parallelLoop {β : Type} :
    List (Nat × Except String β) → Except String (List (Nat × β))
  | [] => Except.ok []
  | (bid, res) :: rest =>
    match res with
    | Except.error _ =>
      Except.error (s!"parallel parse failed at batch {bid}")
    | Except.ok r =>
      match parallelLoop rest with
      | Except.ok acc => Except.ok ((bid, r) :: acc)
      | Except.error e => Except.error e

/-- `decompress_and_parse_parallel` around the loop: on success the partial
results are reassembled and finalized (abstracted as `finalize`); a loop
failure propagates. -/
def decompress_and_parse_parallel {β γ : Type}
    (completions : List (Nat × Except String β))
    (finalize : List (Nat × β) → γ) : Except String γ :=
  match parallelLoop completions with
  | Except.ok results => Except.ok (finalize results)
  | Except.error e => Except.error e

/-- `parse_file` after the dispatcher call: Phase 2 writes the parquet
tables, Phase 6 writes `manifest.json`; a dispatcher exception propagates
before either write. -/
def parse_file {γ : Type} (output_dir : String) (core : Except String γ) :
    List FsWrite × Except String γ :=
  match core with
  | Except.error e => ([], Except.error e)
  | Except.ok r =>
    ([FsWrite.parquet output_dir, FsWrite.manifest output_dir], Except.ok r)

structure ParseRecord where
  status : String
  error_message : Option String
deriving DecidableEq, Repr

/-- `parse_file_task`: on success the record becomes `processed`; the
`except Exception as e` handler stores `status="error"` with `str(e)`. -/
def parse_file_task {γ : Type} (run : List FsWrite × Except String γ) :
    List FsWrite × ParseRecord :=
  match run.2 with
  | Except.ok _ => (run.1, { status := "processed", error_message := Option.none })
  | Except.error e => (run.1, { status := "error", error_message := some e })

lemma parallelLoop_first_error {β : Type} (pre : List (Nat × β)) (bid : Nat)
    (err : String) (post : List (Nat × Except String β)) :
    parallelLoop
        (pre.map (fun p => (p.1, Except.ok p.2)) ++ (bid, Except.error err) :: post)
      = Except.error (s!"parallel parse failed at batch {bid}") := by
  induction pre with
  | nil => rfl
  | cons p ps ih => simp [parallelLoop, ih]

/-- **C5** — if some worker batch fails (first failure at `bid`, after the
successful completions `pre`), the dispatcher raises
`RuntimeError("parallel parse failed at batch {bid}")`; everything queued
behind the failure is cancelled and contributes nothing (the outcome is
invariant under `post`); `parse_file` aborts before Phase 2, so no parquet
and no manifest write happens; and the task record is `status = "error"`
with the exception message. -/
theorem C5_worker_failure_aborts {β γ : Type} (pre : List (Nat × β))
    (bid : Nat) (err : String) (post : List (Nat × Except String β))
    (finalize : List (Nat × β) → γ) (dir : String) :
    decompress_and_parse_parallel
        (pre.map (fun p => (p.1, Except.ok p.2)) ++ (bid, Except.error err) :: post)
        finalize
      = Except.error (s!"parallel parse failed at batch {bid}")
    ∧ (∀ post' : List (Nat × Except String β),
        decompress_and_parse_parallel
            (pre.map (fun p => (p.1, Except.ok p.2))
              ++ (bid, Except.error err) :: post') finalize
          = decompress_and_parse_parallel
              (pre.map (fun p => (p.1, Except.ok p.2))
                ++ (bid, Except.error err) :: post) finalize)
    ∧ (parse_file dir (decompress_and_parse_parallel
          (pre.map (fun p => (p.1, Except.ok p.2))
            ++ (bid, Except.error err) :: post) finalize)).1 = []
    ∧ parse_file_task (parse_file dir (decompress_and_parse_parallel
          (pre.map (fun p => (p.1, Except.ok p.2))
            ++ (bid, Except.error err) :: post) finalize))
        = ([], { status := "error",
                 error_message := some (s!"parallel parse failed at batch {bid}") }) := by
  have hloop : ∀ post' : List (Nat × Except String β),
      decompress_and_parse_parallel
          (pre.map (fun p => (p.1, Except.ok p.2))
            ++ (bid, Except.error err) :: post') finalize
        = Except.error (s!"parallel parse failed at batch {bid}") := by
    intro post'
    unfold decompress_and_parse_parallel
    rw [parallelLoop_first_error]
  refine ⟨hloop post, fun post' => (hloop post').trans (hloop post).symm, ?_, ?_⟩
  · rw [hloop post]
    rfl
  · rw [hloop post]
    rfl

theorem C1_parallel_serial_equivalence_witness :
    ("acc" ∈ ALL_LIST_KEYS)
    ∧ (∀ b ∈ c1wbatches,
        noLabelBeforeSensor (b.map (classifyLine c1jl c1dr false)) = true)
    ∧ chanOf (parallel_pipeline c1jl c1dr c1wbatches false) "acc"
        = chanOf (single_pipeline c1jl c1dr c1wbatches.flatten false) "acc"
    ∧ (parallel_pipeline c1jl c1dr c1wbatches false).labels
        = (single_pipeline c1jl c1dr c1wbatches.flatten false).labels :=
  ⟨by decide, by decide,
    (C1_parallel_serial_equivalence c1jl c1dr c1wbatches false).1 "acc"
      (by decide),
    (C1_parallel_serial_equivalence c1jl c1dr c1wbatches false).2.2.2
      (by decide)⟩

end SensorHub
